import Mathlib

/-!
# Web configuration of a Prometheus instance: TLS credentials, mounts and config file

A shallow embedding of the Go package `pkg/web_config`
(`config.go`, `tls_credentials.go`) together with the properties of its
asset paths, volume mounts and generated configuration document.

Go strings are embedded as `String`.  The only byte-level processing in the
package is done by `path.Clean`, which inspects the ASCII bytes `/` and `.`
only; on valid UTF-8 text a byte-wise and a character-wise reading of that
algorithm coincide, so the embedding works on characters.
-/

namespace web_config

/-! ## Kubernetes and monitoring API types (the fields the package reads) -/

/-- The type `v1.SecretKeySelector` of the Kubernetes core API: the name of a
Secret (`LocalObjectReference.Name`) and a key inside it. -/
structure SecretKeySelector where
  Name : String
  Key : String
deriving DecidableEq, Repr

/-- The type `v1.ConfigMapKeySelector` of the Kubernetes core API: the name of
a ConfigMap (`LocalObjectReference.Name`) and a key inside it. -/
structure ConfigMapKeySelector where
  Name : String
  Key : String
deriving DecidableEq, Repr

/-- Modelled from the spec: the declaration of `monitoringv1.SecretOrConfigMap`
is not among the sources. It is a struct with two optional pointer fields,
`Secret` and `ConfigMap`; a nil pointer is `none`. -/
structure SecretOrConfigMap where
  Secret : Option SecretKeySelector := none
  ConfigMap : Option ConfigMapKeySelector := none
deriving DecidableEq, Repr

/-- Modelled from the spec: the declaration of `monitoringv1.WebTLSConfig` is
not among the sources. The fields are the ones `GenerateConfigFileContents`
reads; `PreferServerCipherSuites` is a `*bool` (unset, true or false). -/
structure WebTLSConfig where
  KeySecret : SecretKeySelector
  Cert : SecretOrConfigMap := {}
  ClientCA : SecretOrConfigMap := {}
  ClientAuthType : String := ""
  MinVersion : String := ""
  MaxVersion : String := ""
  CipherSuites : List String := []
  PreferServerCipherSuites : Option Bool := none
  CurvePreferences : List String := []
deriving DecidableEq, Repr

/-- The source of a `v1.Volume`: the fields of `v1.VolumeSource` the package
sets, a Secret by name (`SecretVolumeSource.SecretName`) and a ConfigMap by
name (`ConfigMapVolumeSource.LocalObjectReference.Name`). Neither carries an
item list, so the whole object is referenced. -/
structure VolumeSource where
  Secret : Option String := none
  ConfigMap : Option String := none
deriving DecidableEq, Repr

/-- The type `v1.Volume`, with its embedded `VolumeSource`. -/
structure Volume where
  Name : String
  VolumeSource : VolumeSource
deriving DecidableEq, Repr

/-- The type `v1.VolumeMount` (the fields the package sets; the others keep
their zero value). -/
structure VolumeMount where
  Name : String
  ReadOnly : Bool
  MountPath : String
  SubPath : String
deriving DecidableEq, Repr

/-! ## Go standard library: `path.Clean` and `path.Join` -/

/-- Inner loop of the `..` case of `path.Clean`:
`for out.w > dotdot && out.index(out.w) != '/' { out.w-- }`.
The buffer is given in reverse (last written byte first) and `last` is the
byte at index `out.w`, the one removed by the preceding `out.w--`. -/
def backtrackLoop (dotdot : Nat) : List Char → Char → List Char
  | [], _ => []
  | c :: rev, last =>
    if (c :: rev).length > dotdot ∧ last ≠ '/' then backtrackLoop dotdot rev c
    else c :: rev

/-- The `..` backtracking of `path.Clean`: `out.w--` followed by
`backtrackLoop`. -/
def backtrack (dotdot : Nat) (out : List Char) : List Char :=
  match out.reverse with
  | [] => out
  | last :: rev => (backtrackLoop dotdot rev last).reverse

/-- The main loop `for r < n` of `path.Clean`. `rest` is `path[r:]`, `out` the
bytes written so far (`out.w` is its length). Every iteration consumes at
least one byte, so a fuel of `len(path)` iterations suffices. -/
def cleanLoop (rooted : Bool) : Nat → List Char → List Char → Nat → List Char
  | 0, _, out, _ => out
  | _ + 1, [], out, _ => out
  | fuel + 1, c :: rest, out, dotdot =>
    if c = '/' then
      cleanLoop rooted fuel rest out dotdot
    else if c = '.' ∧ (rest = [] ∨ rest.head? = some '/') then
      cleanLoop rooted fuel rest out dotdot
    else if c = '.' ∧ rest.head? = some '.' ∧
        (rest.tail = [] ∨ rest.tail.head? = some '/') then
      if out.length > dotdot then
        cleanLoop rooted fuel rest.tail (backtrack dotdot out) dotdot
      else if !rooted then
        let out1 := if out.length > 0 then out ++ ['/'] else out
        let out2 := out1 ++ ['.', '.']
        cleanLoop rooted fuel rest.tail out2 out2.length
      else
        cleanLoop rooted fuel rest.tail out dotdot
    else
      let out1 :=
        if (rooted && out.length != 1) || (!rooted && out.length != 0) then out ++ ['/']
        else out
      cleanLoop rooted fuel ((c :: rest).dropWhile (fun x => x != '/'))
        (out1 ++ (c :: rest).takeWhile (fun x => x != '/')) dotdot

/-- The buffer of `path.Clean` when its loop ends, for a non-empty path. -/
def cleanBuf (path : List Char) : List Char :=
  let rooted := path.head? == some '/'
  if rooted then cleanLoop true path.length path.tail ['/'] 1
  else cleanLoop false path.length path [] 0

/-- Go's `path.Clean`. -/
def Clean (path : String) : String :=
  if path = "" then "."
  else
    let out := cleanBuf path.data
    if out.length = 0 then "." else String.mk out

/-- Go's `path.Join` for two elements: empty elements are ignored, the others
are joined with a slash and the result is cleaned; all empty gives the empty
string. -/
def pathJoin (a b : String) : String :=
  if a.length + b.length = 0 then ""
  else if a = "" then Clean b
  else if b = "" then Clean (a ++ "/")
  else Clean (a ++ "/" ++ b)

/-! ## `gopkg.in/yaml.v2`: the values handed to `yaml.Marshal` -/

mutual
/-- The Go values the package puts into a YAML document: a `string`, a
`[]string`, a non-nil `*bool`, and a `yaml.MapSlice` (an ordered list of
`yaml.MapItem`). -/
inductive YamlValue where
  | string (s : String)
  | stringSlice (l : List String)
  | boolPtr (b : Bool)
  | mapSlice (items : List MapItem)
/-- The type `yaml.MapItem`: a key (always a string in this package) and a
value. -/
inductive MapItem where
  | mk (Key : String) (Value : YamlValue)
end

/-- Field `Key` of a `yaml.MapItem`. -/
def MapItem.Key : MapItem → String
  | .mk k _ => k

/-- Field `Value` of a `yaml.MapItem`. -/
def MapItem.Value : MapItem → YamlValue
  | .mk _ v => v

/-- The type `yaml.MapSlice`. -/
abbrev MapSlice := List MapItem

/-! ## `pkg/assets` -/

/-- Modelled from the spec: `assets.TLSAssetKeyFromSelector(ns, sel).String()`
is not among the sources. The key is `kindTag + "_" + ns + "_" + resourceName +
"_" + key`, with `kindTag` `"secret"` for a Secret-backed selector and
`"configmap"` for a ConfigMap-backed one, so that the empty namespace gives
`kindTag + "__" + resourceName + "_" + key`. A selector with both pointers set
counts as Secret-backed, the order in which `Mount` tests them. The package
never passes a selector with both pointers nil. -/
def TLSAssetKeyFromSelector (ns : String) (sel : SecretOrConfigMap) : String :=
  match sel.Secret, sel.ConfigMap with
  | some s, _ => "secret" ++ "_" ++ ns ++ "_" ++ s.Name ++ "_" ++ s.Key
  | none, some c => "configmap" ++ "_" ++ ns ++ "_" ++ c.Name ++ "_" ++ c.Key
  | none, none => ""

/-! ## `tls_credentials.go` -/

/-- Package variable `volumePrefix` of `tls_credentials.go`. -/
def volumePrefix : String := "web-config-tls-"

/-- TLSCredentials are the credentials used for web TLS. -/
structure TLSCredentials where
  mountPath : String
  keySecret : SecretKeySelector
  cert : SecretOrConfigMap
  clientCA : SecretOrConfigMap
deriving DecidableEq, Repr

/-- NewTLSCredentials creates new TLSCredentials from secrets of configmaps. -/
def NewTLSCredentials (mountPath : String) (key : SecretKeySelector)
    (cert : SecretOrConfigMap) (clientCA : SecretOrConfigMap) : TLSCredentials :=
  { mountPath := mountPath, keySecret := key, cert := cert, clientCA := clientCA }

/-- Method `assetPath`: `path.Join(a.mountPath, TLSAssetKeyFromSelector("", sel).String())`. -/
def TLSCredentials.assetPath (a : TLSCredentials) (sel : SecretOrConfigMap) : String :=
  pathJoin a.mountPath (TLSAssetKeyFromSelector "" sel)

/-- GetKeyMountPath is the mount path of the TLS key inside a prometheus container. -/
def TLSCredentials.GetKeyMountPath (a : TLSCredentials) : String :=
  let secret : SecretOrConfigMap := { Secret := some a.keySecret }
  a.assetPath secret

/-- GetCertMountPath is the mount path of the TLS certificate inside a prometheus container. -/
def TLSCredentials.GetCertMountPath (a : TLSCredentials) : String :=
  if a.cert.ConfigMap ≠ none ∨ a.cert.Secret ≠ none then a.assetPath a.cert
  else ""

/-- GetCAMountPath is the mount path of the client CA certificate inside a prometheus container. -/
def TLSCredentials.GetCAMountPath (a : TLSCredentials) : String :=
  if a.clientCA.ConfigMap ≠ none ∨ a.clientCA.Secret ≠ none then a.assetPath a.clientCA
  else ""

/-- Method `mountSecret`: appends the volume of a Secret and its mount. -/
def TLSCredentials.mountSecret (_a : TLSCredentials) (volumes : List Volume)
    (mounts : List VolumeMount) (secret : SecretKeySelector) (volumePrefix : String)
    (mountPath : String) : List Volume × List VolumeMount :=
  let volumeName := volumePrefix ++ secret.Name
  let volumes := volumes ++
    [{ Name := volumeName, VolumeSource := { Secret := some secret.Name } }]
  let mounts := mounts ++
    [{ Name := volumeName, ReadOnly := true, MountPath := mountPath, SubPath := secret.Key }]
  (volumes, mounts)

/-- Method `mountConfigMap`: appends the volume of a ConfigMap and its mount. -/
def TLSCredentials.mountConfigMap (_a : TLSCredentials) (volumes : List Volume)
    (mounts : List VolumeMount) (configMap : ConfigMapKeySelector) (volumePrefix : String)
    (mountPath : String) : List Volume × List VolumeMount :=
  let volumeName := volumePrefix ++ configMap.Name
  let volumes := volumes ++
    [{ Name := volumeName, VolumeSource := { ConfigMap := some configMap.Name } }]
  let mounts := mounts ++
    [{ Name := volumeName, ReadOnly := true, MountPath := mountPath, SubPath := configMap.Key }]
  (volumes, mounts)

/-- Mount creates volumes and volume mounts referencing the TLS credentials. -/
def TLSCredentials.Mount (a : TLSCredentials) : List Volume × List VolumeMount :=
  let volumes : List Volume := []
  let mounts : List VolumeMount := []
  let pfx := volumePrefix ++ "secret-key-"
  let (volumes, mounts) := a.mountSecret volumes mounts a.keySecret pfx a.GetKeyMountPath
  let (volumes, mounts) :=
    match a.cert.Secret, a.cert.ConfigMap with
    | some secret, _ =>
      let pfx := volumePrefix ++ "secret-cert-"
      a.mountSecret volumes mounts secret pfx a.GetCertMountPath
    | none, some configMap =>
      let pfx := volumePrefix ++ "configmap-cert-"
      a.mountConfigMap volumes mounts configMap pfx a.GetCertMountPath
    | none, none => (volumes, mounts)
  let (volumes, mounts) :=
    match a.clientCA.Secret, a.clientCA.ConfigMap with
    | some secret, _ =>
      let pfx := volumePrefix ++ "secret-client-ca-"
      a.mountSecret volumes mounts secret pfx a.GetCAMountPath
    | none, some configMap =>
      let pfx := volumePrefix ++ "configmap-client-ca-"
      a.mountConfigMap volumes mounts configMap pfx a.GetCAMountPath
    | none, none => (volumes, mounts)
  (volumes, mounts)

/-! ## `config.go` -/

/-- Package variable `volumeName` of `config.go`. -/
def volumeName : String := "web-config"

/-- Config is the web configuration for a prometheus instance. -/
structure Config where
  webConfigSecretName : String
deriving DecidableEq, Repr

/-- NewConfig creates a new Config. -/
def NewConfig (secretName : String) : Config :=
  { webConfigSecretName := secretName }

/-- GenerateConfigFileContents generates a new web config a returns its
contents. `yamlMarshal` stands for `yaml.Marshal` of `gopkg.in/yaml.v2`; the
document is the value it is applied to. -/
def Config.GenerateConfigFileContents {β : Type} (yamlMarshal : YamlValue → β) (_c : Config)
    (assetsPathPrefix : String) (tls : Option WebTLSConfig) : β :=
  match tls with
  | none => yamlMarshal (YamlValue.mapSlice [])
  | some tls =>
    let assets := NewTLSCredentials assetsPathPrefix tls.KeySecret tls.Cert tls.ClientCA
    let tlsServerConfig : MapSlice := []
    let tlsServerConfig :=
      if assets.GetCertMountPath ≠ "" then
        tlsServerConfig ++ [MapItem.mk "cert_file" (YamlValue.string assets.GetCertMountPath)]
      else tlsServerConfig
    let tlsServerConfig :=
      if assets.GetKeyMountPath ≠ "" then
        tlsServerConfig ++ [MapItem.mk "key_file" (YamlValue.string assets.GetKeyMountPath)]
      else tlsServerConfig
    let tlsServerConfig :=
      if tls.ClientAuthType ≠ "" then
        tlsServerConfig ++ [MapItem.mk "client_auth_type" (YamlValue.string tls.ClientAuthType)]
      else tlsServerConfig
    let tlsServerConfig :=
      if assets.GetCAMountPath ≠ "" then
        tlsServerConfig ++ [MapItem.mk "client_ca_file" (YamlValue.string assets.GetCAMountPath)]
      else tlsServerConfig
    let tlsServerConfig :=
      if tls.MinVersion ≠ "" then
        tlsServerConfig ++ [MapItem.mk "min_version" (YamlValue.string tls.MinVersion)]
      else tlsServerConfig
    let tlsServerConfig :=
      if tls.MaxVersion ≠ "" then
        tlsServerConfig ++ [MapItem.mk "max_version" (YamlValue.string tls.MaxVersion)]
      else tlsServerConfig
    let tlsServerConfig :=
      if tls.CipherSuites.length ≠ 0 then
        tlsServerConfig ++ [MapItem.mk "cipher_suites" (YamlValue.stringSlice tls.CipherSuites)]
      else tlsServerConfig
    let tlsServerConfig :=
      match tls.PreferServerCipherSuites with
      | some b =>
        tlsServerConfig ++ [MapItem.mk "prefer_server_cipher_suites" (YamlValue.boolPtr b)]
      | none => tlsServerConfig
    let tlsServerConfig :=
      if tls.CurvePreferences.length ≠ 0 then
        tlsServerConfig ++
          [MapItem.mk "curve_preferences" (YamlValue.stringSlice tls.CurvePreferences)]
      else tlsServerConfig
    let cfg : MapSlice := [MapItem.mk "tls_server_config" (YamlValue.mapSlice tlsServerConfig)]
    yamlMarshal (YamlValue.mapSlice cfg)

/-- Method `makeArg`: `fmt.Sprintf("--web.config.file=%s", filePath)`. -/
def Config.makeArg (_c : Config) (filePath : String) : String :=
  "--web.config.file=" ++ filePath

/-- Method `makeVolume`. -/
def Config.makeVolume (c : Config) : Volume :=
  { Name := volumeName, VolumeSource := { Secret := some c.webConfigSecretName } }

/-- Method `makeVolumeMount`. -/
def Config.makeVolumeMount (_c : Config) (filePath : String) : VolumeMount :=
  { Name := volumeName, SubPath := "web-config.yaml", ReadOnly := true, MountPath := filePath }

/-- Mount create a volumes and a volume mount referencing with the configuration
file. In addition, Mount returns a web.config.file command line option
referencing the file in the volume mount. -/
def Config.Mount (c : Config) (destinationPath : String) : String × Volume × VolumeMount :=
  let arg := c.makeArg destinationPath
  let volume := c.makeVolume
  let mount := c.makeVolumeMount destinationPath
  (arg, volume, mount)

/-! ## Vocabulary of the properties -/

/-- A path element that `path.Clean` copies as it is: not empty, without a
slash, and neither `.` nor `..`. -/
def plainElem (s : List Char) : Prop :=
  s ≠ [] ∧ '/' ∉ s ∧ s ≠ ['.'] ∧ s ≠ ['.', '.']

/-- The default case of the loop of `path.Clean` on the element `s`: a slash
is written unless the buffer is at its start, then the element is copied. -/
def addElem (rooted : Bool) (out s : List Char) : List Char :=
  (if (rooted && out.length != 1) || (!rooted && out.length != 0) then out ++ ['/']
   else out) ++ s

/-- The buffer and the `dotdot` mark after the `..` case of the loop of
`path.Clean`. -/
def stepDotDot (rooted : Bool) (out : List Char) (dotdot : Nat) : List Char × Nat :=
  if out.length > dotdot then (backtrack dotdot out, dotdot)
  else if !rooted then
    ((if out.length > 0 then out ++ ['/'] else out) ++ ['.', '.'],
     ((if out.length > 0 then out ++ ['/'] else out) ++ ['.', '.']).length)
  else (out, dotdot)

/-- The selector is configured: one of its two pointers is set. This is the
test made by `GetCertMountPath` and `GetCAMountPath`. -/
def SecretOrConfigMap.isConfigured (sel : SecretOrConfigMap) : Prop :=
  sel.ConfigMap ≠ none ∨ sel.Secret ≠ none

instance (sel : SecretOrConfigMap) : Decidable sel.isConfigured := by
  unfold SecretOrConfigMap.isConfigured; infer_instance

/-- The key of the selector a mount is planned for: the Secret's key when the
Secret pointer is set, otherwise the ConfigMap's key, if any. -/
def SecretOrConfigMap.selectedKey (sel : SecretOrConfigMap) : Option String :=
  match sel.Secret, sel.ConfigMap with
  | some s, _ => some s.Key
  | none, some c => some c.Key
  | none, none => none

/-- The volume expected for a certificate-like credential of the given role
(`"cert"` or `"client-ca"`): named by role, kind and resource name, and
referencing the whole Secret or the whole ConfigMap. -/
def expectedVolume (role : String) (sel : SecretOrConfigMap) : List Volume :=
  match sel.Secret, sel.ConfigMap with
  | some s, _ =>
    [{ Name := "web-config-tls-secret-" ++ role ++ "-" ++ s.Name,
       VolumeSource := { Secret := some s.Name, ConfigMap := none } }]
  | none, some c =>
    [{ Name := "web-config-tls-configmap-" ++ role ++ "-" ++ c.Name,
       VolumeSource := { Secret := none, ConfigMap := some c.Name } }]
  | none, none => []

/-- The value stored under `key` in an ordered mapping: that of the first item
with this key. -/
def MapSlice.lookup (m : MapSlice) (key : String) : Option YamlValue :=
  (m.find? (fun it => it.Key == key)).map MapItem.Value

/-- The order in which the fields of `tls_server_config` are emitted. -/
def fieldOrder : List String :=
  ["cert_file", "key_file", "client_auth_type", "client_ca_file", "min_version",
   "max_version", "cipher_suites", "prefer_server_cipher_suites", "curve_preferences"]

/-- Closed form of the mapping built by `GenerateConfigFileContents` under
`tls_server_config`: the concatenation of the optional items. -/
def tlsServerConfigItems (assetsPathPrefix : String) (tls : WebTLSConfig) : MapSlice :=
  let assets := NewTLSCredentials assetsPathPrefix tls.KeySecret tls.Cert tls.ClientCA
  (if assets.GetCertMountPath ≠ "" then
      [MapItem.mk "cert_file" (YamlValue.string assets.GetCertMountPath)] else []) ++
  ((if assets.GetKeyMountPath ≠ "" then
      [MapItem.mk "key_file" (YamlValue.string assets.GetKeyMountPath)] else []) ++
  ((if tls.ClientAuthType ≠ "" then
      [MapItem.mk "client_auth_type" (YamlValue.string tls.ClientAuthType)] else []) ++
  ((if assets.GetCAMountPath ≠ "" then
      [MapItem.mk "client_ca_file" (YamlValue.string assets.GetCAMountPath)] else []) ++
  ((if tls.MinVersion ≠ "" then
      [MapItem.mk "min_version" (YamlValue.string tls.MinVersion)] else []) ++
  ((if tls.MaxVersion ≠ "" then
      [MapItem.mk "max_version" (YamlValue.string tls.MaxVersion)] else []) ++
  ((if tls.CipherSuites.length ≠ 0 then
      [MapItem.mk "cipher_suites" (YamlValue.stringSlice tls.CipherSuites)] else []) ++
  ((match tls.PreferServerCipherSuites with
    | some b => [MapItem.mk "prefer_server_cipher_suites" (YamlValue.boolPtr b)]
    | none => []) ++
  (if tls.CurvePreferences.length ≠ 0 then
      [MapItem.mk "curve_preferences" (YamlValue.stringSlice tls.CurvePreferences)]
    else []))))))))

/-- The file paths a `tls_server_config` mapping refers to: the string values
of its `key_file`, `cert_file` and `client_ca_file` items. -/
def filePaths (items : MapSlice) : List String :=
  items.filterMap (fun it =>
    if it.Key = "key_file" ∨ it.Key = "cert_file" ∨ it.Key = "client_ca_file" then
      match it.Value with
      | YamlValue.string s => some s
      | _ => none
    else none)

/-- The storage kind, resource name and key of a configured selector: those of
the Secret when the Secret pointer is set, otherwise those of the ConfigMap. -/
def SecretOrConfigMap.selected (sel : SecretOrConfigMap) : Option (String × String × String) :=
  match sel.Secret, sel.ConfigMap with
  | some s, _ => some ("secret", s.Name, s.Key)
  | none, some c => some ("configmap", c.Name, c.Key)
  | none, none => none

/-- A resource name without `_` and `/`, and a key without `/`. -/
def validNameKey (n k : String) : Prop :=
  '_' ∉ n.data ∧ '/' ∉ n.data ∧ '/' ∉ k.data

instance (n k : String) : Decidable (validNameKey n k) := by
  unfold validNameKey; infer_instance

/-! ## Properties of `TLSCredentials.Mount` -/

/-- Closed form of `Mount`: the volumes and mounts it appends, in order. -/
theorem Mount_eq (a : TLSCredentials) :
    a.Mount =
      (([{ Name := "web-config-tls-secret-key-" ++ a.keySecret.Name,
            VolumeSource := { Secret := some a.keySecret.Name } }] ++
          (match a.cert.Secret, a.cert.ConfigMap with
            | some s, _ => [{ Name := "web-config-tls-secret-cert-" ++ s.Name,
                              VolumeSource := { Secret := some s.Name } }]
            | none, some c => [{ Name := "web-config-tls-configmap-cert-" ++ c.Name,
                                 VolumeSource := { ConfigMap := some c.Name } }]
            | none, none => [])) ++
          (match a.clientCA.Secret, a.clientCA.ConfigMap with
            | some s, _ => [{ Name := "web-config-tls-secret-client-ca-" ++ s.Name,
                              VolumeSource := { Secret := some s.Name } }]
            | none, some c => [{ Name := "web-config-tls-configmap-client-ca-" ++ c.Name,
                                 VolumeSource := { ConfigMap := some c.Name } }]
            | none, none => []),
       ([{ Name := "web-config-tls-secret-key-" ++ a.keySecret.Name, ReadOnly := true,
            MountPath := a.GetKeyMountPath, SubPath := a.keySecret.Key }] ++
          (match a.cert.Secret, a.cert.ConfigMap with
            | some s, _ => [{ Name := "web-config-tls-secret-cert-" ++ s.Name, ReadOnly := true,
                              MountPath := a.GetCertMountPath, SubPath := s.Key }]
            | none, some c => [{ Name := "web-config-tls-configmap-cert-" ++ c.Name,
                                 ReadOnly := true,
                                 MountPath := a.GetCertMountPath, SubPath := c.Key }]
            | none, none => [])) ++
          (match a.clientCA.Secret, a.clientCA.ConfigMap with
            | some s, _ => [{ Name := "web-config-tls-secret-client-ca-" ++ s.Name,
                              ReadOnly := true,
                              MountPath := a.GetCAMountPath, SubPath := s.Key }]
            | none, some c => [{ Name := "web-config-tls-configmap-client-ca-" ++ c.Name,
                                 ReadOnly := true,
                                 MountPath := a.GetCAMountPath, SubPath := c.Key }]
            | none, none => [])) := by
  have h1 : volumePrefix ++ "secret-key-" = "web-config-tls-secret-key-" := by decide
  have h2 : volumePrefix ++ "secret-cert-" = "web-config-tls-secret-cert-" := by decide
  have h3 : volumePrefix ++ "configmap-cert-" = "web-config-tls-configmap-cert-" := by decide
  have h4 : volumePrefix ++ "secret-client-ca-" = "web-config-tls-secret-client-ca-" := by decide
  have h5 : volumePrefix ++ "configmap-client-ca-" = "web-config-tls-configmap-client-ca-" := by
    decide
  unfold TLSCredentials.Mount
  rw [h1, h2, h3, h4, h5]
  rcases hcs : a.cert.Secret with _ | cs <;> rcases hcc : a.cert.ConfigMap with _ | cc <;>
    rcases hxs : a.clientCA.Secret with _ | xs <;>
    rcases hxc : a.clientCA.ConfigMap with _ | xc <;>
    simp [TLSCredentials.mountSecret, TLSCredentials.mountConfigMap]

/-- Two strings that start with literal texts differing at some position are
different, whatever follows the literals. -/
theorem append_ne_of_data (a b x y : String) (n : Nat)
    (h : a.data.get? n ≠ b.data.get? n) (ha : n < a.data.length) (hb : n < b.data.length) :
    a ++ x ≠ b ++ y := by
  intro heq
  have hd : a.data ++ x.data = b.data ++ y.data := by
    have := congrArg String.data heq
    simpa [String.data_append] using this
  have h1 := congrArg (fun l => l.get? n) hd
  simp only [List.get?_eq_getElem?] at h1 h
  rw [List.getElem?_append_left ha, List.getElem?_append_left hb] at h1
  exact h h1

/-- C3: `Mount` returns as many mounts as volumes, one for the key plus one for
each configured certificate and client-CA selector; the key comes first, then
the certificate, then the client CA, and mounts and volumes carry the same
names position by position. -/
theorem Mount_lengths_and_order (a : TLSCredentials) :
    a.Mount.1.length =
        1 + (if a.cert.isConfigured then 1 else 0) + (if a.clientCA.isConfigured then 1 else 0)
      ∧ a.Mount.2.length = a.Mount.1.length
      ∧ a.Mount.2.map VolumeMount.Name = a.Mount.1.map Volume.Name
      ∧ a.Mount.2.map VolumeMount.MountPath =
          [a.GetKeyMountPath] ++ (if a.cert.isConfigured then [a.GetCertMountPath] else []) ++
            (if a.clientCA.isConfigured then [a.GetCAMountPath] else [])
      ∧ a.Mount.1.map (fun v => v.VolumeSource) =
          [{ Secret := some a.keySecret.Name }] ++
            (expectedVolume "cert" a.cert).map (fun v => v.VolumeSource) ++
            (expectedVolume "client-ca" a.clientCA).map (fun v => v.VolumeSource) := by
  rw [Mount_eq]
  rcases hcs : a.cert.Secret with _ | cs <;> rcases hcc : a.cert.ConfigMap with _ | cc <;>
    rcases hxs : a.clientCA.Secret with _ | xs <;>
    rcases hxc : a.clientCA.ConfigMap with _ | xc <;>
    simp [SecretOrConfigMap.isConfigured, expectedVolume, hcs, hcc, hxs, hxc]

/-- C4: every mount returned by `Mount` is read-only, and the pairs of sub-path
and mount path are, in order, the key's key with the resolved key path, the
certificate selector's key with the resolved certificate path (if configured)
and the client-CA selector's key with the resolved client-CA path (if
configured). -/
theorem Mount_mounts_readOnly_subPath_mountPath (a : TLSCredentials) :
    (∀ m ∈ a.Mount.2, m.ReadOnly = true)
      ∧ a.Mount.2.map (fun m => (m.SubPath, m.MountPath)) =
          [(a.keySecret.Key, a.GetKeyMountPath)] ++
            (a.cert.selectedKey.toList.map (fun k => (k, a.GetCertMountPath))) ++
            (a.clientCA.selectedKey.toList.map (fun k => (k, a.GetCAMountPath))) := by
  rw [Mount_eq]
  rcases hcs : a.cert.Secret with _ | cs <;> rcases hcc : a.cert.ConfigMap with _ | cc <;>
    rcases hxs : a.clientCA.Secret with _ | xs <;>
    rcases hxc : a.clientCA.ConfigMap with _ | xc <;>
    simp [SecretOrConfigMap.selectedKey, hcs, hcc, hxs, hxc]

/-- C5: the volumes returned by `Mount` are the key volume, named
`web-config-tls-secret-key-` plus the Secret's name and referencing that
Secret, followed by the certificate volume and the client-CA volume (if
configured), each named by role, kind and resource name and referencing the
whole Secret or the whole ConfigMap of that name, never both. -/
theorem Mount_volumes_named_and_sourced (a : TLSCredentials) :
    a.Mount.1 =
        [{ Name := "web-config-tls-secret-key-" ++ a.keySecret.Name,
           VolumeSource := { Secret := some a.keySecret.Name, ConfigMap := none } }] ++
          expectedVolume "cert" a.cert ++ expectedVolume "client-ca" a.clientCA
      ∧ ∀ v ∈ a.Mount.1, (v.VolumeSource.Secret = none ↔ v.VolumeSource.ConfigMap ≠ none) := by
  have e1 : ∀ x : String, "web-config-tls-secret-" ++ "cert" ++ "-" ++ x
      = "web-config-tls-secret-cert-" ++ x := by
    intro x; apply String.ext; simp [String.data_append]
  have e2 : ∀ x : String, "web-config-tls-configmap-" ++ "cert" ++ "-" ++ x
      = "web-config-tls-configmap-cert-" ++ x := by
    intro x; apply String.ext; simp [String.data_append]
  have e3 : ∀ x : String, "web-config-tls-secret-" ++ "client-ca" ++ "-" ++ x
      = "web-config-tls-secret-client-ca-" ++ x := by
    intro x; apply String.ext; simp [String.data_append]
  have e4 : ∀ x : String, "web-config-tls-configmap-" ++ "client-ca" ++ "-" ++ x
      = "web-config-tls-configmap-client-ca-" ++ x := by
    intro x; apply String.ext; simp [String.data_append]
  rw [Mount_eq]
  rcases hcs : a.cert.Secret with _ | cs <;> rcases hcc : a.cert.ConfigMap with _ | cc <;>
    rcases hxs : a.clientCA.Secret with _ | xs <;>
    rcases hxc : a.clientCA.ConfigMap with _ | xc <;>
    simp [expectedVolume, hcs, hcc, hxs, hxc, e1, e2, e3, e4]

/-- C6: the names of the volumes returned by one call of `Mount` are pairwise
distinct, whatever the resource names and kinds of the three selectors. -/
theorem Mount_volume_names_nodup (a : TLSCredentials) :
    (a.Mount.1.map Volume.Name).Nodup := by
  have k1 : ∀ x y : String, "web-config-tls-secret-key-" ++ x
      ≠ "web-config-tls-secret-cert-" ++ y := fun x y =>
    append_ne_of_data _ _ x y 22 (by decide) (by decide) (by decide)
  have k2 : ∀ x y : String, "web-config-tls-secret-key-" ++ x
      ≠ "web-config-tls-configmap-cert-" ++ y := fun x y =>
    append_ne_of_data _ _ x y 15 (by decide) (by decide) (by decide)
  have k3 : ∀ x y : String, "web-config-tls-secret-key-" ++ x
      ≠ "web-config-tls-secret-client-ca-" ++ y := fun x y =>
    append_ne_of_data _ _ x y 22 (by decide) (by decide) (by decide)
  have k4 : ∀ x y : String, "web-config-tls-secret-key-" ++ x
      ≠ "web-config-tls-configmap-client-ca-" ++ y := fun x y =>
    append_ne_of_data _ _ x y 15 (by decide) (by decide) (by decide)
  have c1 : ∀ x y : String, "web-config-tls-secret-cert-" ++ x
      ≠ "web-config-tls-secret-client-ca-" ++ y := fun x y =>
    append_ne_of_data _ _ x y 23 (by decide) (by decide) (by decide)
  have c2 : ∀ x y : String, "web-config-tls-secret-cert-" ++ x
      ≠ "web-config-tls-configmap-client-ca-" ++ y := fun x y =>
    append_ne_of_data _ _ x y 15 (by decide) (by decide) (by decide)
  have c3 : ∀ x y : String, "web-config-tls-configmap-cert-" ++ x
      ≠ "web-config-tls-secret-client-ca-" ++ y := fun x y =>
    append_ne_of_data _ _ x y 15 (by decide) (by decide) (by decide)
  have c4 : ∀ x y : String, "web-config-tls-configmap-cert-" ++ x
      ≠ "web-config-tls-configmap-client-ca-" ++ y := fun x y =>
    append_ne_of_data _ _ x y 26 (by decide) (by decide) (by decide)
  rw [Mount_eq]
  rcases hcs : a.cert.Secret with _ | cs <;> rcases hcc : a.cert.ConfigMap with _ | cc <;>
    rcases hxs : a.clientCA.Secret with _ | xs <;>
    rcases hxc : a.clientCA.ConfigMap with _ | xc <;>
    simp [k1, k2, k3, k4, c1, c2, c3, c4]

/-! ## Properties of the asset paths -/

theorem Clean_ne_empty (path : String) : Clean path ≠ "" := by
  unfold Clean
  split
  · decide
  · simp only []
    split
    · decide
    · rename_i h
      intro h2
      apply h
      have := congrArg String.data h2
      simp at this
      simp [this]

theorem pathJoin_ne_empty (a b : String) (h : b ≠ "") : pathJoin a b ≠ "" := by
  unfold pathJoin
  have hb : b.length ≠ 0 := by
    intro h0
    apply h
    apply String.ext
    exact List.length_eq_zero.mp h0
  split_ifs
  all_goals first | omega | exact Clean_ne_empty _

theorem TLSAssetKeyFromSelector_ne_empty (ns : String) (sel : SecretOrConfigMap)
    (h : sel.isConfigured) : TLSAssetKeyFromSelector ns sel ≠ "" := by
  unfold TLSAssetKeyFromSelector
  rcases hs : sel.Secret with _ | s <;> rcases hc : sel.ConfigMap with _ | c
  · simp [SecretOrConfigMap.isConfigured, hs, hc] at h
  all_goals
    simp only []
    intro h2
    have := congrArg String.data h2
    simp [String.data_append] at this

theorem GetKeyMountPath_ne_empty (a : TLSCredentials) : a.GetKeyMountPath ≠ "" := by
  unfold TLSCredentials.GetKeyMountPath TLSCredentials.assetPath
  apply pathJoin_ne_empty
  apply TLSAssetKeyFromSelector_ne_empty
  simp [SecretOrConfigMap.isConfigured]

theorem GetCertMountPath_ne_empty_iff (a : TLSCredentials) :
    a.GetCertMountPath ≠ "" ↔ a.cert.isConfigured := by
  unfold TLSCredentials.GetCertMountPath
  by_cases h : a.cert.isConfigured
  · have h2 := h
    unfold SecretOrConfigMap.isConfigured at h2
    simp only [h2, if_true, h, iff_true]
    exact pathJoin_ne_empty _ _ (TLSAssetKeyFromSelector_ne_empty _ _ h)
  · have h2 := h
    unfold SecretOrConfigMap.isConfigured at h2
    simp [h2, h]

theorem GetCAMountPath_ne_empty_iff (a : TLSCredentials) :
    a.GetCAMountPath ≠ "" ↔ a.clientCA.isConfigured := by
  unfold TLSCredentials.GetCAMountPath
  by_cases h : a.clientCA.isConfigured
  · have h2 := h
    unfold SecretOrConfigMap.isConfigured at h2
    simp only [h2, if_true, h, iff_true]
    exact pathJoin_ne_empty _ _ (TLSAssetKeyFromSelector_ne_empty _ _ h)
  · have h2 := h
    unfold SecretOrConfigMap.isConfigured at h2
    simp [h2, h]

theorem ite_append_singleton {α : Type} (c : Prop) [Decidable c] (l : List α) (x : α) :
    (if c then l ++ [x] else l) = l ++ (if c then [x] else []) := by
  split <;> simp

theorem GenerateConfigFileContents_some {β : Type} (yamlMarshal : YamlValue → β) (c : Config)
    (assetsPathPrefix : String) (tls : WebTLSConfig) :
    c.GenerateConfigFileContents yamlMarshal assetsPathPrefix (some tls) =
      yamlMarshal (YamlValue.mapSlice [MapItem.mk "tls_server_config"
        (YamlValue.mapSlice (tlsServerConfigItems assetsPathPrefix tls))]) := by
  rcases h : tls.PreferServerCipherSuites with _ | b <;>
    simp only [Config.GenerateConfigFileContents, tlsServerConfigItems, h,
      ite_append_singleton] <;>
    simp only [List.nil_append, List.append_assoc, List.append_nil]

theorem lookup_ite_append (c : Prop) [Decidable c] (it : MapItem) (l : MapSlice) (k : String) :
    MapSlice.lookup ((if c then [it] else []) ++ l) k =
      if c ∧ it.Key = k then some it.Value else MapSlice.lookup l k := by
  unfold MapSlice.lookup
  by_cases hc : c <;> by_cases hk : it.Key = k <;> simp [hc, hk, List.find?_cons]

theorem lookup_ite (c : Prop) [Decidable c] (it : MapItem) (k : String) :
    MapSlice.lookup (if c then [it] else []) k =
      if c ∧ it.Key = k then some it.Value else none := by
  have := lookup_ite_append c it [] k
  simpa [MapSlice.lookup] using this

theorem lookup_cons (it : MapItem) (l : MapSlice) (k : String) :
    MapSlice.lookup (it :: l) k =
      if it.Key = k then some it.Value else MapSlice.lookup l k := by
  unfold MapSlice.lookup
  by_cases hk : it.Key = k <;> simp [hk, List.find?_cons]

theorem lookup_nil (k : String) : MapSlice.lookup [] k = none := rfl

theorem keys_ite_append_sublist (c : Prop) [Decidable c] (it : MapItem) (l : MapSlice)
    (ks : List String) (h : (l.map MapItem.Key).Sublist ks) :
    (((if c then [it] else []) ++ l).map MapItem.Key).Sublist (it.Key :: ks) := by
  by_cases hc : c
  · simpa [hc] using h
  · simpa [hc] using List.Sublist.cons _ h

theorem keys_ite_sublist (c : Prop) [Decidable c] (it : MapItem) :
    ((if c then [it] else []).map MapItem.Key).Sublist [it.Key] := by
  by_cases hc : c <;> simp [hc]

theorem tlsServerConfigItems_keys_sublist (assetsPathPrefix : String) (tls : WebTLSConfig) :
    ((tlsServerConfigItems assetsPathPrefix tls).map MapItem.Key).Sublist fieldOrder := by
  unfold tlsServerConfigItems fieldOrder
  simp only []
  refine keys_ite_append_sublist _ (MapItem.mk "cert_file" _) _ _ ?_
  refine keys_ite_append_sublist _ (MapItem.mk "key_file" _) _ _ ?_
  refine keys_ite_append_sublist _ (MapItem.mk "client_auth_type" _) _ _ ?_
  refine keys_ite_append_sublist _ (MapItem.mk "client_ca_file" _) _ _ ?_
  refine keys_ite_append_sublist _ (MapItem.mk "min_version" _) _ _ ?_
  refine keys_ite_append_sublist _ (MapItem.mk "max_version" _) _ _ ?_
  refine keys_ite_append_sublist _ (MapItem.mk "cipher_suites" _) _ _ ?_
  rcases tls.PreferServerCipherSuites with _ | b
  · simp only [List.nil_append]
    exact List.Sublist.cons _ (keys_ite_sublist _ (MapItem.mk "curve_preferences" _))
  · simp only [List.singleton_append, List.map_cons]
    exact List.Sublist.cons₂ _ (keys_ite_sublist _ (MapItem.mk "curve_preferences" _))

/-- C1: for a TLS spec that is present, the generated document has the single
top-level key `tls_server_config`, and the keys of its mapping form, without
repetition, a subsequence of the fixed field order. -/
theorem GenerateConfigFileContents_field_order (c : Config) (assetsPathPrefix : String)
    (tls : WebTLSConfig) :
    ∃ items : MapSlice,
      (∀ (β : Type) (yamlMarshal : YamlValue → β),
        c.GenerateConfigFileContents yamlMarshal assetsPathPrefix (some tls) =
          yamlMarshal (YamlValue.mapSlice
            [MapItem.mk "tls_server_config" (YamlValue.mapSlice items)]))
      ∧ (items.map MapItem.Key).Sublist
          ["cert_file", "key_file", "client_auth_type", "client_ca_file", "min_version",
           "max_version", "cipher_suites", "prefer_server_cipher_suites", "curve_preferences"]
      ∧ (items.map MapItem.Key).Nodup := by
  refine ⟨tlsServerConfigItems assetsPathPrefix tls,
    fun β m => GenerateConfigFileContents_some m c assetsPathPrefix tls,
    tlsServerConfigItems_keys_sublist assetsPathPrefix tls, ?_⟩
  exact List.Nodup.sublist (tlsServerConfigItems_keys_sublist assetsPathPrefix tls)
    (by decide)

theorem tlsServerConfigItems_lookup (assetsPathPrefix : String) (tls : WebTLSConfig) (k : String) :
    MapSlice.lookup (tlsServerConfigItems assetsPathPrefix tls) k =
      let assets := NewTLSCredentials assetsPathPrefix tls.KeySecret tls.Cert tls.ClientCA
      if assets.GetCertMountPath ≠ "" ∧ "cert_file" = k then
        some (YamlValue.string assets.GetCertMountPath)
      else if assets.GetKeyMountPath ≠ "" ∧ "key_file" = k then
        some (YamlValue.string assets.GetKeyMountPath)
      else if tls.ClientAuthType ≠ "" ∧ "client_auth_type" = k then
        some (YamlValue.string tls.ClientAuthType)
      else if assets.GetCAMountPath ≠ "" ∧ "client_ca_file" = k then
        some (YamlValue.string assets.GetCAMountPath)
      else if tls.MinVersion ≠ "" ∧ "min_version" = k then
        some (YamlValue.string tls.MinVersion)
      else if tls.MaxVersion ≠ "" ∧ "max_version" = k then
        some (YamlValue.string tls.MaxVersion)
      else if tls.CipherSuites.length ≠ 0 ∧ "cipher_suites" = k then
        some (YamlValue.stringSlice tls.CipherSuites)
      else if tls.PreferServerCipherSuites ≠ none ∧ "prefer_server_cipher_suites" = k then
        tls.PreferServerCipherSuites.map YamlValue.boolPtr
      else if tls.CurvePreferences.length ≠ 0 ∧ "curve_preferences" = k then
        some (YamlValue.stringSlice tls.CurvePreferences)
      else none := by
  unfold tlsServerConfigItems
  rcases h : tls.PreferServerCipherSuites with _ | b <;>
    simp only [lookup_ite_append, lookup_ite, lookup_cons, lookup_nil, List.nil_append,
      List.singleton_append, MapItem.Key, MapItem.Value, ne_eq, not_true_eq_false, false_and,
      if_false, Option.map_none', Option.map_some', not_false_eq_true, true_and, reduceCtorEq]

/-- C7: for a TLS spec that is present and any prefix, the generated document
has a `key_file` entry whose value is the resolved key path of the credentials
built from the prefix and the spec. -/
theorem GenerateConfigFileContents_key_file (c : Config) (assetsPathPrefix : String)
    (tls : WebTLSConfig) :
    ∃ items : MapSlice,
      (∀ (β : Type) (yamlMarshal : YamlValue → β),
        c.GenerateConfigFileContents yamlMarshal assetsPathPrefix (some tls) =
          yamlMarshal (YamlValue.mapSlice
            [MapItem.mk "tls_server_config" (YamlValue.mapSlice items)]))
      ∧ MapSlice.lookup items "key_file" =
          some (YamlValue.string
            (NewTLSCredentials assetsPathPrefix tls.KeySecret tls.Cert
              tls.ClientCA).GetKeyMountPath)
      ∧ MapItem.mk "key_file" (YamlValue.string
            (NewTLSCredentials assetsPathPrefix tls.KeySecret tls.Cert
              tls.ClientCA).GetKeyMountPath) ∈ items := by
  refine ⟨tlsServerConfigItems assetsPathPrefix tls,
    fun β m => GenerateConfigFileContents_some m c assetsPathPrefix tls, ?_, ?_⟩
  · rw [tlsServerConfigItems_lookup]
    have hk := GetKeyMountPath_ne_empty
      (NewTLSCredentials assetsPathPrefix tls.KeySecret tls.Cert tls.ClientCA)
    have h1 : ¬ ("cert_file" = "key_file") := by decide
    simp [hk, h1]
  · have hk := GetKeyMountPath_ne_empty
      (NewTLSCredentials assetsPathPrefix tls.KeySecret tls.Cert tls.ClientCA)
    unfold tlsServerConfigItems
    simp [hk]

/-- C8: for a TLS spec that is present, the generated document has a `cert_file`
entry exactly when the certificate selector is configured and a
`client_ca_file` entry exactly when the client-CA selector is configured; the
values are the resolved certificate path and the resolved client-CA path. -/
theorem GenerateConfigFileContents_cert_and_client_ca (c : Config) (assetsPathPrefix : String)
    (tls : WebTLSConfig) :
    ∃ items : MapSlice,
      (∀ (β : Type) (yamlMarshal : YamlValue → β),
        c.GenerateConfigFileContents yamlMarshal assetsPathPrefix (some tls) =
          yamlMarshal (YamlValue.mapSlice
            [MapItem.mk "tls_server_config" (YamlValue.mapSlice items)]))
      ∧ ("cert_file" ∈ items.map MapItem.Key ↔ tls.Cert.isConfigured)
      ∧ ("client_ca_file" ∈ items.map MapItem.Key ↔ tls.ClientCA.isConfigured)
      ∧ MapSlice.lookup items "cert_file" =
          (if tls.Cert.isConfigured then
            some (YamlValue.string
              (NewTLSCredentials assetsPathPrefix tls.KeySecret tls.Cert
                tls.ClientCA).GetCertMountPath)
           else none)
      ∧ MapSlice.lookup items "client_ca_file" =
          (if tls.ClientCA.isConfigured then
            some (YamlValue.string
              (NewTLSCredentials assetsPathPrefix tls.KeySecret tls.Cert
                tls.ClientCA).GetCAMountPath)
           else none) := by
  have hc := GetCertMountPath_ne_empty_iff
    (NewTLSCredentials assetsPathPrefix tls.KeySecret tls.Cert tls.ClientCA)
  have hx := GetCAMountPath_ne_empty_iff
    (NewTLSCredentials assetsPathPrefix tls.KeySecret tls.Cert tls.ClientCA)
  have hc2 : (NewTLSCredentials assetsPathPrefix tls.KeySecret tls.Cert tls.ClientCA).cert
      = tls.Cert := rfl
  have hx2 : (NewTLSCredentials assetsPathPrefix tls.KeySecret tls.Cert tls.ClientCA).clientCA
      = tls.ClientCA := rfl
  rw [hc2] at hc
  rw [hx2] at hx
  refine ⟨tlsServerConfigItems assetsPathPrefix tls,
    fun β m => GenerateConfigFileContents_some m c assetsPathPrefix tls, ?_, ?_, ?_, ?_⟩
  · rw [← hc]
    unfold tlsServerConfigItems
    rcases tls.PreferServerCipherSuites with _ | b <;>
      simp [MapItem.Key, apply_ite (List.map MapItem.Key), apply_ite (fun l => "cert_file" ∈ l)]
  · rw [← hx]
    unfold tlsServerConfigItems
    rcases tls.PreferServerCipherSuites with _ | b <;>
      simp [MapItem.Key, apply_ite (List.map MapItem.Key),
        apply_ite (fun l => "client_ca_file" ∈ l)]
  · rw [tlsServerConfigItems_lookup]
    by_cases h : tls.Cert.isConfigured
    · simp [h, hc.mpr h]
    · have h0 : (NewTLSCredentials assetsPathPrefix tls.KeySecret tls.Cert
          tls.ClientCA).GetCertMountPath = "" := by
        by_contra hne
        exact h (hc.mp hne)
      simp [h, h0]
  · rw [tlsServerConfigItems_lookup]
    by_cases h : tls.ClientCA.isConfigured
    · simp [h, hx.mpr h]
    · have h0 : (NewTLSCredentials assetsPathPrefix tls.KeySecret tls.Cert
          tls.ClientCA).GetCAMountPath = "" := by
        by_contra hne
        exact h (hx.mp hne)
      simp [h, h0]

/-- C9: for a TLS spec that is present, the generated document has a
`prefer_server_cipher_suites` entry exactly when the tri-state is set, and the
entry carries the boolean it is set to (so an explicit `false` is emitted and
an unset value is not). -/
theorem GenerateConfigFileContents_prefer_server_cipher_suites (c : Config)
    (assetsPathPrefix : String) (tls : WebTLSConfig) :
    ∃ items : MapSlice,
      (∀ (β : Type) (yamlMarshal : YamlValue → β),
        c.GenerateConfigFileContents yamlMarshal assetsPathPrefix (some tls) =
          yamlMarshal (YamlValue.mapSlice
            [MapItem.mk "tls_server_config" (YamlValue.mapSlice items)]))
      ∧ ("prefer_server_cipher_suites" ∈ items.map MapItem.Key ↔
          tls.PreferServerCipherSuites ≠ none)
      ∧ MapSlice.lookup items "prefer_server_cipher_suites" =
          tls.PreferServerCipherSuites.map YamlValue.boolPtr := by
  refine ⟨tlsServerConfigItems assetsPathPrefix tls,
    fun β m => GenerateConfigFileContents_some m c assetsPathPrefix tls, ?_, ?_⟩
  · unfold tlsServerConfigItems
    rcases tls.PreferServerCipherSuites with _ | b <;>
      simp [MapItem.Key, apply_ite (List.map MapItem.Key),
        apply_ite (fun l => "prefer_server_cipher_suites" ∈ l)]
  · rw [tlsServerConfigItems_lookup]
    rcases tls.PreferServerCipherSuites with _ | b <;> simp

/-- C10: for a TLS spec that is present, `client_auth_type`, `min_version` and
`max_version` are emitted exactly when the input string is non-empty, and
`cipher_suites` and `curve_preferences` exactly when the input list is
non-empty; each emitted value is the input value, lists in their input
order. -/
theorem GenerateConfigFileContents_scalars_and_lists (c : Config) (assetsPathPrefix : String)
    (tls : WebTLSConfig) :
    ∃ items : MapSlice,
      (∀ (β : Type) (yamlMarshal : YamlValue → β),
        c.GenerateConfigFileContents yamlMarshal assetsPathPrefix (some tls) =
          yamlMarshal (YamlValue.mapSlice
            [MapItem.mk "tls_server_config" (YamlValue.mapSlice items)]))
      ∧ (("client_auth_type" ∈ items.map MapItem.Key ↔ tls.ClientAuthType ≠ "")
        ∧ ("min_version" ∈ items.map MapItem.Key ↔ tls.MinVersion ≠ "")
        ∧ ("max_version" ∈ items.map MapItem.Key ↔ tls.MaxVersion ≠ "")
        ∧ ("cipher_suites" ∈ items.map MapItem.Key ↔ tls.CipherSuites ≠ [])
        ∧ ("curve_preferences" ∈ items.map MapItem.Key ↔ tls.CurvePreferences ≠ []))
      ∧ (MapSlice.lookup items "client_auth_type" =
            (if tls.ClientAuthType ≠ "" then some (YamlValue.string tls.ClientAuthType)
             else none)
        ∧ MapSlice.lookup items "min_version" =
            (if tls.MinVersion ≠ "" then some (YamlValue.string tls.MinVersion) else none)
        ∧ MapSlice.lookup items "max_version" =
            (if tls.MaxVersion ≠ "" then some (YamlValue.string tls.MaxVersion) else none)
        ∧ MapSlice.lookup items "cipher_suites" =
            (if tls.CipherSuites ≠ [] then some (YamlValue.stringSlice tls.CipherSuites)
             else none)
        ∧ MapSlice.lookup items "curve_preferences" =
            (if tls.CurvePreferences ≠ [] then
              some (YamlValue.stringSlice tls.CurvePreferences)
             else none)) := by
  refine ⟨tlsServerConfigItems assetsPathPrefix tls,
    fun β m => GenerateConfigFileContents_some m c assetsPathPrefix tls,
    ⟨?_, ?_, ?_, ?_, ?_⟩, ⟨?_, ?_, ?_, ?_, ?_⟩⟩
  · unfold tlsServerConfigItems
    rcases tls.PreferServerCipherSuites with _ | b <;>
      simp [MapItem.Key, apply_ite (List.map MapItem.Key),
        apply_ite (fun l => "client_auth_type" ∈ l)]
  · unfold tlsServerConfigItems
    rcases tls.PreferServerCipherSuites with _ | b <;>
      simp [MapItem.Key, apply_ite (List.map MapItem.Key),
        apply_ite (fun l => "min_version" ∈ l)]
  · unfold tlsServerConfigItems
    rcases tls.PreferServerCipherSuites with _ | b <;>
      simp [MapItem.Key, apply_ite (List.map MapItem.Key),
        apply_ite (fun l => "max_version" ∈ l)]
  · unfold tlsServerConfigItems
    rcases tls.PreferServerCipherSuites with _ | b <;>
      simp [MapItem.Key, apply_ite (List.map MapItem.Key),
        apply_ite (fun l => "cipher_suites" ∈ l)]
  · unfold tlsServerConfigItems
    rcases tls.PreferServerCipherSuites with _ | b <;>
      simp [MapItem.Key, apply_ite (List.map MapItem.Key),
        apply_ite (fun l => "curve_preferences" ∈ l)]
  · rw [tlsServerConfigItems_lookup]; simp
  · rw [tlsServerConfigItems_lookup]; simp
  · rw [tlsServerConfigItems_lookup]; simp
  · rw [tlsServerConfigItems_lookup]; simp
  · rw [tlsServerConfigItems_lookup]; simp

/-! ## Properties of `path.Clean` and `path.Join` -/

theorem cleanLoop_succ_cons (rooted : Bool) (fuel : Nat) (c : Char) (rest out : List Char)
    (dotdot : Nat) :
    cleanLoop rooted (fuel + 1) (c :: rest) out dotdot =
      if c = '/' then cleanLoop rooted fuel rest out dotdot
      else if c = '.' ∧ (rest = [] ∨ rest.head? = some '/') then
        cleanLoop rooted fuel rest out dotdot
      else if c = '.' ∧ rest.head? = some '.' ∧
          (rest.tail = [] ∨ rest.tail.head? = some '/') then
        cleanLoop rooted fuel rest.tail (stepDotDot rooted out dotdot).1
          (stepDotDot rooted out dotdot).2
      else
        cleanLoop rooted fuel ((c :: rest).dropWhile (fun x => x != '/'))
          (addElem rooted out ((c :: rest).takeWhile (fun x => x != '/'))) dotdot := by
  rw [cleanLoop]
  unfold stepDotDot addElem
  split_ifs <;> rfl

theorem cleanLoop_nil (rooted : Bool) (fuel : Nat) (out : List Char) (dotdot : Nat) :
    cleanLoop rooted fuel [] out dotdot = out := by
  cases fuel <;> rfl

theorem takeWhile_no_slash (s : List Char) (h : '/' ∉ s) :
    s.takeWhile (fun x => x != '/') = s := by
  rw [List.takeWhile_eq_self_iff]
  intro x hx
  have : x ≠ '/' := fun e => h (e ▸ hx)
  simpa using this

theorem dropWhile_no_slash (s : List Char) (h : '/' ∉ s) :
    s.dropWhile (fun x => x != '/') = [] := by
  rw [List.dropWhile_eq_nil_iff]
  intro x hx
  have : x ≠ '/' := fun e => h (e ▸ hx)
  simpa using this

theorem cleanLoop_plain (rooted : Bool) (fuel : Nat) (s out : List Char) (dotdot : Nat)
    (hs : plainElem s) :
    cleanLoop rooted (fuel + 1) s out dotdot = addElem rooted out s := by
  obtain ⟨hne, hsl, hd, hdd⟩ := hs
  cases s with
  | nil => exact absurd rfl hne
  | cons c t =>
    have hc : c ≠ '/' := fun e => hsl (by simp [e])
    have ht : '/' ∉ t := fun h => hsl (List.mem_cons_of_mem _ h)
    have hhead : t.head? ≠ some '/' := by
      intro h
      cases t with
      | nil => simp at h
      | cons x u => simp at h; exact ht (by simp [h])
    have h2 : ¬ (c = '.' ∧ (t = [] ∨ t.head? = some '/')) := by
      rintro ⟨e, h | h⟩
      · exact hd (by rw [e, h])
      · exact hhead h
    have h3 : ¬ (c = '.' ∧ t.head? = some '.' ∧ (t.tail = [] ∨ t.tail.head? = some '/')) := by
      rintro ⟨e, h1, h | h⟩
      · cases t with
        | nil => simp at h1
        | cons x u =>
          simp at h1 h
          exact hdd (by rw [e, h1, h])
      · cases t with
        | nil => simp at h1
        | cons x u =>
          cases u with
          | nil => simp at h
          | cons y v =>
            simp at h
            exact ht (by simp [h])
    rw [cleanLoop_succ_cons, if_neg hc, if_neg h2, if_neg h3,
      takeWhile_no_slash _ hsl, dropWhile_no_slash _ hsl, cleanLoop_nil]

theorem takeWhile_append_slash (a s : List Char) :
    (a ++ '/' :: s).takeWhile (fun x => x != '/') = a.takeWhile (fun x => x != '/') := by
  induction a with
  | nil => simp
  | cons x u ih =>
    by_cases hx : x = '/'
    · simp [hx]
    · simp [List.takeWhile_cons, hx, ih]

theorem dropWhile_append_slash (a s : List Char) :
    (a ++ '/' :: s).dropWhile (fun x => x != '/') =
      a.dropWhile (fun x => x != '/') ++ '/' :: s := by
  induction a with
  | nil => simp
  | cons x u ih =>
    by_cases hx : x = '/'
    · simp [hx]
    · simp [List.dropWhile_cons, hx, ih]

theorem length_dropWhile_le (a : List Char) (p : Char → Bool) :
    (a.dropWhile p).length ≤ a.length := by
  induction a with
  | nil => simp
  | cons x u ih =>
    rw [List.dropWhile_cons]
    split
    · simp; omega
    · simp

/-- Running the loop of `path.Clean` on `a ++ "/" ++ s`, for a plain element
`s`, is running it on `a` and then copying `s`. -/
theorem cleanLoop_append_plain (rooted : Bool) (s : List Char) (hs : plainElem s) :
    ∀ (fuel : Nat) (a out : List Char) (dotdot fuel2 : Nat), a.length ≤ fuel →
      a.length + 2 ≤ fuel2 →
      cleanLoop rooted fuel2 (a ++ '/' :: s) out dotdot =
        addElem rooted (cleanLoop rooted fuel a out dotdot) s := by
  intro fuel
  induction fuel with
  | zero =>
    intro a out dotdot fuel2 ha h2
    have : a = [] := List.length_eq_zero.mp (by omega)
    subst this
    obtain ⟨f, rfl⟩ : ∃ f, fuel2 = f + 2 := ⟨fuel2 - 2, by simp at h2; omega⟩
    rw [List.nil_append, cleanLoop_succ_cons, if_pos rfl, cleanLoop_plain _ _ _ _ _ hs,
      cleanLoop_nil]
  | succ fuel ih =>
    intro a out dotdot fuel2 ha h2
    obtain ⟨f, rfl⟩ : ∃ f, fuel2 = f + 2 := ⟨fuel2 - 2, by omega⟩
    cases a with
    | nil =>
      rw [List.nil_append, cleanLoop_succ_cons, if_pos rfl, cleanLoop_plain _ _ _ _ _ hs,
        cleanLoop_nil]
    | cons c rest =>
      simp only [List.length_cons] at ha h2
      have e2 : ((rest ++ '/' :: s) = [] ∨ (rest ++ '/' :: s).head? = some '/') ↔
          (rest = [] ∨ rest.head? = some '/') := by
        cases rest <;> simp
      have e3 : ((rest ++ '/' :: s).head? = some '.' ∧
            ((rest ++ '/' :: s).tail = [] ∨ (rest ++ '/' :: s).tail.head? = some '/')) ↔
          (rest.head? = some '.' ∧ (rest.tail = [] ∨ rest.tail.head? = some '/')) := by
        cases rest with
        | nil => simp
        | cons x u => cases u <;> simp
      rw [List.cons_append, cleanLoop_succ_cons, cleanLoop_succ_cons]
      by_cases h1 : c = '/'
      · rw [if_pos h1, if_pos h1]
        exact ih rest out dotdot (f + 1) (by omega) (by omega)
      · rw [if_neg h1, if_neg h1]
        by_cases hd : c = '.' ∧ (rest = [] ∨ rest.head? = some '/')
        · rw [if_pos hd, if_pos ⟨hd.1, e2.mpr hd.2⟩]
          exact ih rest out dotdot (f + 1) (by omega) (by omega)
        · rw [if_neg hd, if_neg (fun h => hd ⟨h.1, e2.mp h.2⟩)]
          by_cases hdd : c = '.' ∧ rest.head? = some '.' ∧
              (rest.tail = [] ∨ rest.tail.head? = some '/')
          · rw [if_pos hdd, if_pos ⟨hdd.1, e3.mpr hdd.2⟩]
            have hne : rest ≠ [] := by
              intro e
              rw [e] at hdd
              simp at hdd
            have ht : (rest ++ '/' :: s).tail = rest.tail ++ '/' :: s := by
              cases rest with
              | nil => exact absurd rfl hne
              | cons x u => rfl
            have hl : rest.tail.length ≤ rest.length := by simp
            rw [ht]
            exact ih rest.tail _ _ (f + 1) (by omega) (by omega)
          · rw [if_neg hdd, if_neg (fun h => hdd ⟨h.1, e3.mp h.2⟩)]
            have hdw : (c :: (rest ++ '/' :: s)).dropWhile (fun x => x != '/') =
                (c :: rest).dropWhile (fun x => x != '/') ++ '/' :: s := by
              rw [← List.cons_append, dropWhile_append_slash]
            have htw : (c :: (rest ++ '/' :: s)).takeWhile (fun x => x != '/') =
                (c :: rest).takeWhile (fun x => x != '/') := by
              rw [← List.cons_append, takeWhile_append_slash]
            have hl : ((c :: rest).dropWhile (fun x => x != '/')).length ≤ rest.length := by
              rw [List.dropWhile_cons]
              have : (c != '/') = true := by simpa using h1
              rw [if_pos this]
              exact length_dropWhile_le _ _
            rw [hdw, htw]
            exact ih _ _ _ (f + 1) (by omega) (by omega)

theorem cleanBuf_append_plain (p s : List Char) (hp : p ≠ []) (hs : plainElem s) :
    cleanBuf (p ++ '/' :: s) = addElem (p.head? == some '/') (cleanBuf p) s := by
  cases p with
  | nil => exact absurd rfl hp
  | cons c r =>
    unfold cleanBuf
    by_cases hc : c = '/'
    · subst hc
      simp only [List.cons_append, List.head?_cons, beq_self_eq_true, if_true, List.tail_cons]
      exact cleanLoop_append_plain true s hs _ r _ _ _ (by simp) (by simp)
    · have hb : ((some c : Option Char) == some '/') = false := by simpa using hc
      simp only [List.cons_append, List.head?_cons, hb, Bool.false_eq_true, if_false]
      rw [← List.cons_append]
      have hpos : 0 < s.length := List.length_pos.mpr hs.1
      exact cleanLoop_append_plain false s hs _ (c :: r) _ _ _ (by simp)
        (by simp only [List.length_cons, List.length_append]; omega)

theorem addElem_ne_nil (rooted : Bool) (out s : List Char) (hs : s ≠ []) :
    addElem rooted out s ≠ [] := by
  unfold addElem
  simp [hs]

/-- Cleaning `p/s`, for a prefix `p` that is already clean and is neither `/`
nor `.`, and a plain element `s`, changes nothing. -/
theorem Clean_append_plain (p s : String) (hclean : Clean p = p) (h1 : p ≠ "/")
    (h2 : p ≠ ".") (hs : plainElem s.data) : Clean (p ++ "/" ++ s) = p ++ "/" ++ s := by
  have hne : p ≠ "" := by
    intro e
    rw [e] at hclean
    exact absurd hclean (by decide)
  have hdne : p.data ≠ [] := fun e => hne (String.ext e)
  have hbuf : cleanBuf p.data = p.data ∧ (cleanBuf p.data).length ≠ 0 := by
    unfold Clean at hclean
    rw [if_neg hne] at hclean
    simp only [] at hclean
    by_cases h0 : (cleanBuf p.data).length = 0
    · rw [if_pos h0] at hclean
      exact absurd hclean.symm h2
    · rw [if_neg h0] at hclean
      exact ⟨congrArg String.data hclean, h0⟩
  have hdata : (p ++ "/" ++ s).data = p.data ++ '/' :: s.data := by
    simp [String.data_append]
  have hne2 : p ++ "/" ++ s ≠ "" := by
    intro e
    have := congrArg String.data e
    rw [hdata] at this
    simp at this
  unfold Clean
  rw [if_neg hne2]
  simp only []
  rw [hdata, cleanBuf_append_plain _ _ hdne hs, hbuf.1]
  have hadd : addElem (p.data.head? == some '/') p.data s.data = p.data ++ '/' :: s.data := by
    unfold addElem
    cases hpd : p.data with
    | nil => exact absurd hpd hdne
    | cons c r =>
      by_cases hc : c = '/'
      · subst hc
        have hr : r ≠ [] := by
          intro e
          apply h1
          apply String.ext
          rw [hpd, e]
        have hl : r.length ≠ 0 := fun e => hr (List.length_eq_zero.mp e)
        simp [hl]
      · have hb : ((some c : Option Char) == some '/') = false := by simpa using hc
        simp [hb]
  rw [hadd]
  have hl : (p.data ++ '/' :: s.data).length ≠ 0 := by simp
  rw [if_neg hl]
  apply String.ext
  rw [hdata]

theorem Clean_plain (s : String) (hs : plainElem s.data) : Clean s = s := by
  have hne : s ≠ "" := by
    intro e
    rw [e] at hs
    exact hs.1 rfl
  unfold Clean
  rw [if_neg hne]
  simp only []
  have hb : cleanBuf s.data = s.data := by
    unfold cleanBuf
    obtain ⟨hn, hsl, hd, hdd⟩ := hs
    cases hsd : s.data with
    | nil => exact absurd hsd hn
    | cons c r =>
      rw [hsd] at hsl hd hdd
      have hc : c ≠ '/' := fun e => hsl (by simp [e])
      have hb : ((some c : Option Char) == some '/') = false := by simpa using hc
      simp only [List.head?_cons, hb, Bool.false_eq_true, if_false, List.length_cons]
      rw [cleanLoop_plain false _ _ _ _ ⟨by simp, hsl, hd, hdd⟩]
      simp [addElem]
  rw [hb]
  have hl : s.data.length ≠ 0 := fun e => hs.1 (List.length_eq_zero.mp e)
  rw [if_neg hl]

theorem pathJoin_of_ne (a b : String) (ha : a ≠ "") (hb : b ≠ "") :
    pathJoin a b = Clean (a ++ "/" ++ b) := by
  have hl : b.length ≠ 0 := by
    intro h0
    exact hb (String.ext (List.length_eq_zero.mp h0))
  unfold pathJoin
  rw [if_neg (by omega), if_neg ha, if_neg hb]

theorem plainElem_assetKey (kind n k : String) (hk : plainElem kind.data)
    (hn : '/' ∉ n.data) (hkey : '/' ∉ k.data) :
    plainElem (kind ++ "__" ++ n ++ "_" ++ k).data := by
  obtain ⟨h0, h1, h2, h3⟩ := hk
  have hd : (kind ++ "__" ++ n ++ "_" ++ k).data =
      kind.data ++ ('_' :: '_' :: (n.data ++ '_' :: k.data)) := by
    simp [String.data_append]
  rw [hd]
  refine ⟨by simp [h0], ?_, ?_, ?_⟩
  · simp [h1, hn, hkey]
  · intro e
    have := congrArg List.length e
    simp at this
    omega
  · intro e
    have := congrArg List.length e
    simp at this
    have : 0 < kind.data.length := List.length_pos.mpr h0
    omega

theorem TLSAssetKeyFromSelector_secret (sel : SecretOrConfigMap) (s : SecretKeySelector)
    (h : sel.Secret = some s) :
    TLSAssetKeyFromSelector "" sel = "secret" ++ "__" ++ s.Name ++ "_" ++ s.Key := by
  unfold TLSAssetKeyFromSelector
  rw [h]
  apply String.ext
  simp [String.data_append]

theorem TLSAssetKeyFromSelector_configMap (sel : SecretOrConfigMap) (c : ConfigMapKeySelector)
    (h : sel.Secret = none) (h2 : sel.ConfigMap = some c) :
    TLSAssetKeyFromSelector "" sel = "configmap" ++ "__" ++ c.Name ++ "_" ++ c.Key := by
  unfold TLSAssetKeyFromSelector
  rw [h, h2]
  apply String.ext
  simp [String.data_append]

/-- The asset path of a selector below a clean prefix, for a resource name and
key without slash: prefix, one slash, asset key. -/
theorem assetPath_of_clean (a : TLSCredentials) (sel : SecretOrConfigMap) (kind n k : String)
    (hsel : TLSAssetKeyFromSelector "" sel = kind ++ "__" ++ n ++ "_" ++ k)
    (hk : plainElem kind.data)
    (hclean : Clean a.mountPath = a.mountPath) (h1 : a.mountPath ≠ "/")
    (h2 : a.mountPath ≠ ".") (hn : '/' ∉ n.data) (hkey : '/' ∉ k.data) :
    a.assetPath sel = a.mountPath ++ "/" ++ (kind ++ "__" ++ n ++ "_" ++ k) := by
  have hne : a.mountPath ≠ "" := by
    intro e
    rw [e] at hclean
    exact absurd hclean (by decide)
  have hp := plainElem_assetKey kind n k hk hn hkey
  have hb : kind ++ "__" ++ n ++ "_" ++ k ≠ "" := by
    intro e
    rw [e] at hp
    exact hp.1 rfl
  unfold TLSCredentials.assetPath
  rw [hsel, pathJoin_of_ne _ _ hne hb]
  exact Clean_append_plain _ _ hclean h1 h2 hp

/-- C2 (amended): below a mount prefix that is already in the cleaned form of
`path.Clean` and is neither `/` nor `.`, the resolved path of a selector whose
resource name and key contain no slash is the prefix, one slash, and
`kind__name_key`, with kind `secret` for the key and for a Secret-backed
selector and `configmap` for a ConfigMap-backed one. -/
theorem mountPath_joined_below_clean (a : TLSCredentials)
    (hclean : Clean a.mountPath = a.mountPath) (h1 : a.mountPath ≠ "/")
    (h2 : a.mountPath ≠ ".") :
    ('/' ∉ a.keySecret.Name.data → '/' ∉ a.keySecret.Key.data →
        a.GetKeyMountPath =
          a.mountPath ++ "/" ++ ("secret" ++ "__" ++ a.keySecret.Name ++ "_" ++ a.keySecret.Key))
      ∧ (∀ s, a.cert.Secret = some s → '/' ∉ s.Name.data → '/' ∉ s.Key.data →
          a.GetCertMountPath = a.mountPath ++ "/" ++ ("secret" ++ "__" ++ s.Name ++ "_" ++ s.Key))
      ∧ (∀ c, a.cert.Secret = none → a.cert.ConfigMap = some c →
          '/' ∉ c.Name.data → '/' ∉ c.Key.data →
          a.GetCertMountPath =
            a.mountPath ++ "/" ++ ("configmap" ++ "__" ++ c.Name ++ "_" ++ c.Key))
      ∧ (∀ s, a.clientCA.Secret = some s → '/' ∉ s.Name.data → '/' ∉ s.Key.data →
          a.GetCAMountPath = a.mountPath ++ "/" ++ ("secret" ++ "__" ++ s.Name ++ "_" ++ s.Key))
      ∧ (∀ c, a.clientCA.Secret = none → a.clientCA.ConfigMap = some c →
          '/' ∉ c.Name.data → '/' ∉ c.Key.data →
          a.GetCAMountPath =
            a.mountPath ++ "/" ++ ("configmap" ++ "__" ++ c.Name ++ "_" ++ c.Key)) := by
  have ks : plainElem "secret".data := by
    refine ⟨by decide, by decide, by decide, by decide⟩
  have kc : plainElem "configmap".data := by
    refine ⟨by decide, by decide, by decide, by decide⟩
  refine ⟨?_, ?_, ?_, ?_, ?_⟩
  · intro hn hk
    unfold TLSCredentials.GetKeyMountPath
    exact assetPath_of_clean a _ _ _ _ (TLSAssetKeyFromSelector_secret _ a.keySecret rfl) ks
      hclean h1 h2 hn hk
  · intro s hs hn hk
    unfold TLSCredentials.GetCertMountPath
    rw [if_pos (Or.inr (by rw [hs]; simp))]
    exact assetPath_of_clean a _ _ _ _ (TLSAssetKeyFromSelector_secret _ s hs) ks
      hclean h1 h2 hn hk
  · intro c hs hc hn hk
    unfold TLSCredentials.GetCertMountPath
    rw [if_pos (Or.inl (by rw [hc]; simp))]
    exact assetPath_of_clean a _ _ _ _ (TLSAssetKeyFromSelector_configMap _ c hs hc) kc
      hclean h1 h2 hn hk
  · intro s hs hn hk
    unfold TLSCredentials.GetCAMountPath
    rw [if_pos (Or.inr (by rw [hs]; simp))]
    exact assetPath_of_clean a _ _ _ _ (TLSAssetKeyFromSelector_secret _ s hs) ks
      hclean h1 h2 hn hk
  · intro c hs hc hn hk
    unfold TLSCredentials.GetCAMountPath
    rw [if_pos (Or.inl (by rw [hc]; simp))]
    exact assetPath_of_clean a _ _ _ _ (TLSAssetKeyFromSelector_configMap _ c hs hc) kc
      hclean h1 h2 hn hk

/-- Witness of C2 (amended): the prefix `/tls-assets-prefix` is clean, and the
key of Secret `some-secret`, key `tls.key`, resolves below it. -/
theorem mountPath_joined_below_clean_witness :
    Clean "/tls-assets-prefix" = "/tls-assets-prefix"
      ∧ (NewTLSCredentials "/tls-assets-prefix" ⟨"some-secret", "tls.key"⟩
          { Secret := some ⟨"some-secret", "tls.crt"⟩ }
          { ConfigMap := some ⟨"some-configmap", "tls.client_ca"⟩ }).GetKeyMountPath
        = "/tls-assets-prefix/secret__some-secret_tls.key" :=
  ⟨by decide,
   ((mountPath_joined_below_clean
      (NewTLSCredentials "/tls-assets-prefix" ⟨"some-secret", "tls.key"⟩
        { Secret := some ⟨"some-secret", "tls.crt"⟩ }
        { ConfigMap := some ⟨"some-configmap", "tls.client_ca"⟩ })
      (by decide) (by decide) (by decide)).1 (by decide) (by decide)).trans (by decide)⟩

/-- C2 as stated fails: with the empty prefix the resolved path is the bare
asset key, without separator; a prefix ending in a slash is not followed by a
second slash; and a key that climbs with `..` leaves the prefix. -/
theorem mountPath_not_always_prefix_slash_key :
    ((NewTLSCredentials "" ⟨"some-secret", "tls.key"⟩ {} {}).GetKeyMountPath
        = "secret__some-secret_tls.key"
      ∧ (NewTLSCredentials "" ⟨"some-secret", "tls.key"⟩ {} {}).GetKeyMountPath
        ≠ "" ++ "/" ++ ("secret" ++ "__" ++ "some-secret" ++ "_" ++ "tls.key"))
    ∧ ((NewTLSCredentials "/tls-assets-prefix/" ⟨"some-secret", "tls.key"⟩ {} {}).GetKeyMountPath
        = "/tls-assets-prefix/secret__some-secret_tls.key"
      ∧ (NewTLSCredentials "/tls-assets-prefix/" ⟨"some-secret", "tls.key"⟩ {} {}).GetKeyMountPath
        ≠ "/tls-assets-prefix/" ++ "/" ++ ("secret" ++ "__" ++ "some-secret" ++ "_" ++ "tls.key"))
    ∧ ((NewTLSCredentials "/tls-assets-prefix" ⟨"some-secret", "/../../etc"⟩ {} {}).GetKeyMountPath
        = "/etc"
      ∧ (NewTLSCredentials "/tls-assets-prefix" ⟨"some-secret", "/../../etc"⟩ {} {}).GetKeyMountPath
        ≠ "/tls-assets-prefix" ++ "/" ++
            ("secret" ++ "__" ++ "some-secret" ++ "_" ++ "/../../etc")) := by
  refine ⟨⟨by decide, by decide⟩, ⟨by decide, by decide⟩, ⟨by decide, by decide⟩⟩

/-! ## Unset selectors and the mount of the configuration file -/

/-- C13: for every prefix, the certificate path is the empty string exactly
when both pointers of the certificate selector are nil, and the client-CA path
is the empty string exactly when both pointers of the client-CA selector are
nil; a configured selector never resolves to the empty path, even with an
empty resource name and key. -/
theorem mountPath_empty_iff_unset (a : TLSCredentials) :
    (a.GetCertMountPath = "" ↔ (a.cert.Secret = none ∧ a.cert.ConfigMap = none))
      ∧ (a.GetCAMountPath = "" ↔ (a.clientCA.Secret = none ∧ a.clientCA.ConfigMap = none)) := by
  have hc := GetCertMountPath_ne_empty_iff a
  have hx := GetCAMountPath_ne_empty_iff a
  unfold SecretOrConfigMap.isConfigured at hc hx
  constructor
  · constructor
    · intro h
      by_contra hne
      apply (hc.mpr ?_) h
      by_cases hs : a.cert.Secret = none
      · exact Or.inl (fun hcm => hne ⟨hs, hcm⟩)
      · exact Or.inr hs
    · rintro ⟨hs, hcm⟩
      by_contra hne
      rcases hc.mp hne with h | h
      · exact h hcm
      · exact h hs
  · constructor
    · intro h
      by_contra hne
      apply (hx.mpr ?_) h
      by_cases hs : a.clientCA.Secret = none
      · exact Or.inl (fun hcm => hne ⟨hs, hcm⟩)
      · exact Or.inr hs
    · rintro ⟨hs, hcm⟩
      by_contra hne
      rcases hx.mp hne with h | h
      · exact h hcm
      · exact h hs

/-- C15: `Mount` of the `Config` built by `NewConfig` returns the argument
`--web.config.file=` followed by the destination path, the volume `web-config`
sourced from the Secret of the configured name, and the read-only mount
`web-config` of the sub-path `web-config.yaml` at the destination path. -/
theorem Config_Mount_eq (secretName destinationPath : String) :
    (NewConfig secretName).Mount destinationPath =
      ("--web.config.file=" ++ destinationPath,
       { Name := "web-config",
         VolumeSource := { Secret := some secretName, ConfigMap := none } },
       { Name := "web-config", ReadOnly := true, MountPath := destinationPath,
         SubPath := "web-config.yaml" }) := by
  rfl

/-- C16: `Mount` validates nothing and always returns the key volume and the
key mount first; for a key selector with empty name and empty key, the first
volume is named exactly `web-config-tls-secret-key-` and references the Secret
with the empty name, and the first mount has the empty sub-path. -/
theorem Mount_key_entry_first (a : TLSCredentials) :
    (∃ vs ms,
        a.Mount =
          ({ Name := "web-config-tls-secret-key-" ++ a.keySecret.Name,
             VolumeSource := { Secret := some a.keySecret.Name, ConfigMap := none } } :: vs,
           { Name := "web-config-tls-secret-key-" ++ a.keySecret.Name, ReadOnly := true,
             MountPath := a.GetKeyMountPath, SubPath := a.keySecret.Key } :: ms))
      ∧ (∀ (mountPath : String) (cert clientCA : SecretOrConfigMap),
          (NewTLSCredentials mountPath ⟨"", ""⟩ cert clientCA).Mount.1.head? =
              some { Name := "web-config-tls-secret-key-",
                     VolumeSource := { Secret := some "", ConfigMap := none } }
            ∧ ((NewTLSCredentials mountPath ⟨"", ""⟩ cert clientCA).Mount.2.head?).map
                (fun m => (m.Name, m.ReadOnly, m.SubPath)) =
              some ("web-config-tls-secret-key-", true, "")) := by
  constructor
  · rw [Mount_eq]
    exact ⟨_, _, rfl⟩
  · intro mountPath cert clientCA
    rw [Mount_eq]
    constructor
    · simp only [List.singleton_append, List.cons_append, List.head?_cons, NewTLSCredentials]
      rfl
    · simp only [List.singleton_append, List.cons_append, List.head?_cons, NewTLSCredentials,
        Option.map_some']
      rfl

theorem filePaths_ite_append (c : Prop) [Decidable c] (it : MapItem) (l : MapSlice) :
    filePaths ((if c then [it] else []) ++ l) =
      (if c then filePaths [it] else []) ++ filePaths l := by
  unfold filePaths
  by_cases hc : c
  · rw [if_pos hc, if_pos hc, List.filterMap_append]
  · rw [if_neg hc, if_neg hc, List.nil_append, List.nil_append]

theorem filePaths_tlsServerConfigItems (assetsPathPrefix : String) (tls : WebTLSConfig) :
    filePaths (tlsServerConfigItems assetsPathPrefix tls) =
      (if (NewTLSCredentials assetsPathPrefix tls.KeySecret tls.Cert
            tls.ClientCA).GetCertMountPath ≠ "" then
          [(NewTLSCredentials assetsPathPrefix tls.KeySecret tls.Cert
            tls.ClientCA).GetCertMountPath] else []) ++
        ((if (NewTLSCredentials assetsPathPrefix tls.KeySecret tls.Cert
              tls.ClientCA).GetKeyMountPath ≠ "" then
            [(NewTLSCredentials assetsPathPrefix tls.KeySecret tls.Cert
              tls.ClientCA).GetKeyMountPath] else []) ++
          (if (NewTLSCredentials assetsPathPrefix tls.KeySecret tls.Cert
              tls.ClientCA).GetCAMountPath ≠ "" then
            [(NewTLSCredentials assetsPathPrefix tls.KeySecret tls.Cert
              tls.ClientCA).GetCAMountPath] else [])) := by
  unfold tlsServerConfigItems
  simp only [filePaths_ite_append]
  have hlast : ∀ (c : Prop) [Decidable c] (it : MapItem),
      filePaths (if c then [it] else []) = if c then filePaths [it] else [] := by
    intro c _ it
    by_cases hc : c <;> simp [hc, filePaths]
  rcases tls.PreferServerCipherSuites with _ | b <;>
    simp [hlast, filePaths, MapItem.Key, MapItem.Value]

theorem Mount_mountPaths (a : TLSCredentials) :
    a.Mount.2.map VolumeMount.MountPath =
      [a.GetKeyMountPath] ++ (if a.cert.isConfigured then [a.GetCertMountPath] else []) ++
        (if a.clientCA.isConfigured then [a.GetCAMountPath] else []) := by
  rw [Mount_eq]
  rcases hcs : a.cert.Secret with _ | cs <;> rcases hcc : a.cert.ConfigMap with _ | cc <;>
    rcases hxs : a.clientCA.Secret with _ | xs <;>
    rcases hxc : a.clientCA.ConfigMap with _ | xc <;>
    simp [SecretOrConfigMap.isConfigured, hcs, hcc, hxs, hxc]

/-- C17: for a TLS spec that is present, the file paths written into the
generated document (the values of `key_file`, `cert_file` and
`client_ca_file`) are exactly the mount paths of the mounts that `Mount`
returns for the credentials built from the same prefix and spec. -/
theorem GenerateConfigFileContents_paths_eq_mount_paths (c : Config)
    (assetsPathPrefix : String) (tls : WebTLSConfig) :
    ∃ items : MapSlice,
      (∀ (β : Type) (yamlMarshal : YamlValue → β),
        c.GenerateConfigFileContents yamlMarshal assetsPathPrefix (some tls) =
          yamlMarshal (YamlValue.mapSlice
            [MapItem.mk "tls_server_config" (YamlValue.mapSlice items)]))
      ∧ ∀ path : String,
          path ∈ filePaths items ↔
            path ∈ (NewTLSCredentials assetsPathPrefix tls.KeySecret tls.Cert
              tls.ClientCA).Mount.2.map VolumeMount.MountPath := by
  refine ⟨tlsServerConfigItems assetsPathPrefix tls,
    fun β m => GenerateConfigFileContents_some m c assetsPathPrefix tls, ?_⟩
  intro path
  have hk := GetKeyMountPath_ne_empty
    (NewTLSCredentials assetsPathPrefix tls.KeySecret tls.Cert tls.ClientCA)
  have hc := GetCertMountPath_ne_empty_iff
    (NewTLSCredentials assetsPathPrefix tls.KeySecret tls.Cert tls.ClientCA)
  have hx := GetCAMountPath_ne_empty_iff
    (NewTLSCredentials assetsPathPrefix tls.KeySecret tls.Cert tls.ClientCA)
  rw [filePaths_tlsServerConfigItems, Mount_mountPaths]
  by_cases h1 : (NewTLSCredentials assetsPathPrefix tls.KeySecret tls.Cert
      tls.ClientCA).cert.isConfigured <;>
    by_cases h2 : (NewTLSCredentials assetsPathPrefix tls.KeySecret tls.Cert
      tls.ClientCA).clientCA.isConfigured
  · have e1 := hc.mpr h1
    have e2 := hx.mpr h2
    simp only [if_pos h1, if_pos h2, if_pos e1, if_pos e2, if_pos hk]
    simp only [List.mem_append, List.mem_singleton]
    tauto
  · have e1 := hc.mpr h1
    have e2 : ¬ ((NewTLSCredentials assetsPathPrefix tls.KeySecret tls.Cert
        tls.ClientCA).GetCAMountPath ≠ "") := fun h => h2 (hx.mp h)
    simp only [if_pos h1, if_neg h2, if_pos e1, if_neg e2, if_pos hk]
    simp only [List.mem_append, List.mem_singleton, List.append_nil]
    tauto
  · have e1 : ¬ ((NewTLSCredentials assetsPathPrefix tls.KeySecret tls.Cert
        tls.ClientCA).GetCertMountPath ≠ "") := fun h => h1 (hc.mp h)
    have e2 := hx.mpr h2
    simp only [if_neg h1, if_pos h2, if_neg e1, if_pos e2, if_pos hk]
    simp only [List.mem_append, List.mem_singleton, List.append_nil, List.nil_append]
  · have e1 : ¬ ((NewTLSCredentials assetsPathPrefix tls.KeySecret tls.Cert
        tls.ClientCA).GetCertMountPath ≠ "") := fun h => h1 (hc.mp h)
    have e2 : ¬ ((NewTLSCredentials assetsPathPrefix tls.KeySecret tls.Cert
        tls.ClientCA).GetCAMountPath ≠ "") := fun h => h2 (hx.mp h)
    simp only [if_neg h1, if_neg h2, if_neg e1, if_neg e2, if_pos hk]
    simp only [List.mem_append, List.mem_singleton, List.append_nil, List.nil_append]

/-! ## Injectivity of the asset paths -/

/-- Cleaning `p/s`, for a non-empty `p` and a plain element `s`: the buffer of
`p` followed by the element. -/
theorem Clean_join_plain (p s : String) (hne : p ≠ "") (hs : plainElem s.data) :
    Clean (p ++ "/" ++ s) =
      String.mk (addElem (p.data.head? == some '/') (cleanBuf p.data) s.data) := by
  have hdne : p.data ≠ [] := fun e => hne (String.ext e)
  have hdata : (p ++ "/" ++ s).data = p.data ++ '/' :: s.data := by
    simp [String.data_append]
  have hne2 : p ++ "/" ++ s ≠ "" := by
    intro e
    have := congrArg String.data e
    rw [hdata] at this
    simp at this
  unfold Clean
  rw [if_neg hne2]
  simp only []
  rw [hdata, cleanBuf_append_plain _ _ hdne hs]
  have hl : (addElem (p.data.head? == some '/') (cleanBuf p.data) s.data).length ≠ 0 :=
    fun e => addElem_ne_nil _ _ _ hs.1 (List.length_eq_zero.mp e)
  rw [if_neg hl]

theorem addElem_inj (rooted : Bool) (out s1 s2 : List Char)
    (h : addElem rooted out s1 = addElem rooted out s2) : s1 = s2 := by
  unfold addElem at h
  exact List.append_cancel_left h

/-- Below a fixed prefix, `path.Join` is injective on plain elements. -/
theorem pathJoin_plain_inj (p s1 s2 : String) (h1 : plainElem s1.data)
    (h2 : plainElem s2.data) (h : pathJoin p s1 = pathJoin p s2) : s1 = s2 := by
  have n1 : s1 ≠ "" := by
    intro e
    rw [e] at h1
    exact h1.1 rfl
  have n2 : s2 ≠ "" := by
    intro e
    rw [e] at h2
    exact h2.1 rfl
  by_cases hp : p = ""
  · subst hp
    have e1 : pathJoin "" s1 = Clean s1 := by
      have hl : s1.length ≠ 0 := fun h0 => n1 (String.ext (List.length_eq_zero.mp h0))
      unfold pathJoin
      rw [if_neg (by simpa using hl), if_pos rfl]
    have e2 : pathJoin "" s2 = Clean s2 := by
      have hl : s2.length ≠ 0 := fun h0 => n2 (String.ext (List.length_eq_zero.mp h0))
      unfold pathJoin
      rw [if_neg (by simpa using hl), if_pos rfl]
    rw [e1, e2, Clean_plain _ h1, Clean_plain _ h2] at h
    exact h
  · rw [pathJoin_of_ne _ _ hp n1, pathJoin_of_ne _ _ hp n2, Clean_join_plain _ _ hp h1,
      Clean_join_plain _ _ hp h2] at h
    have hd := congrArg String.data h
    simp only [] at hd
    exact String.ext (addElem_inj _ _ _ _ hd)

theorem append_cons_inj_of_not_mem (x : Char) :
    ∀ (l1 l2 r1 r2 : List Char), x ∉ l1 → x ∉ l2 → l1 ++ x :: r1 = l2 ++ x :: r2 →
      l1 = l2 ∧ r1 = r2 := by
  intro l1
  induction l1 with
  | nil =>
    intro l2 r1 r2 _ h2 h
    cases l2 with
    | nil => simpa using h
    | cons y u =>
      simp at h
      exact absurd (by simp [h.1]) h2
  | cons y u ih =>
    intro l2 r1 r2 h1 h2 h
    cases l2 with
    | nil =>
      simp at h
      exact absurd (by simp [h.1]) h1
    | cons z v =>
      simp at h
      obtain ⟨e, hrest⟩ := h
      have := ih v r1 r2 (fun hm => h1 (List.mem_cons_of_mem _ hm))
        (fun hm => h2 (List.mem_cons_of_mem _ hm)) hrest
      exact ⟨by rw [e, this.1], this.2⟩

theorem TLSAssetKeyFromSelector_selected (sel : SecretOrConfigMap) (kind n k : String)
    (h : sel.selected = some (kind, n, k)) :
    TLSAssetKeyFromSelector "" sel = kind ++ "__" ++ n ++ "_" ++ k
      ∧ (kind = "secret" ∨ kind = "configmap") := by
  unfold SecretOrConfigMap.selected at h
  rcases hs : sel.Secret with _ | s
  · rcases hc : sel.ConfigMap with _ | c
    · rw [hs, hc] at h
      simp at h
    · rw [hs, hc] at h
      simp only [Option.some.injEq, Prod.mk.injEq] at h
      obtain ⟨rfl, rfl, rfl⟩ := h
      exact ⟨TLSAssetKeyFromSelector_configMap sel c hs hc, Or.inr rfl⟩
  · rw [hs] at h
    simp only [Option.some.injEq, Prod.mk.injEq] at h
    obtain ⟨rfl, rfl, rfl⟩ := h
    exact ⟨TLSAssetKeyFromSelector_secret sel s hs, Or.inl rfl⟩

theorem plainElem_kind (kind : String) (h : kind = "secret" ∨ kind = "configmap") :
    plainElem kind.data := by
  rcases h with rfl | rfl <;> exact ⟨by decide, by decide, by decide, by decide⟩

/-- An asset key determines its kind, and, when the resource names contain no
underscore, its resource name and key. -/
theorem assetKey_inj (kind1 n1 k1 kind2 n2 k2 : String)
    (hk1 : kind1 = "secret" ∨ kind1 = "configmap")
    (hk2 : kind2 = "secret" ∨ kind2 = "configmap")
    (h : kind1 ++ "__" ++ n1 ++ "_" ++ k1 = kind2 ++ "__" ++ n2 ++ "_" ++ k2) :
    kind1 = kind2 ∧ ('_' ∉ n1.data → '_' ∉ n2.data → n1 = n2 ∧ k1 = k2) := by
  have hd := congrArg String.data h
  rcases hk1 with rfl | rfl <;> rcases hk2 with rfl | rfl
  · refine ⟨rfl, fun u1 u2 => ?_⟩
    simp [String.data_append] at hd
    have := append_cons_inj_of_not_mem '_' _ _ _ _ u1 u2 hd
    exact ⟨String.ext this.1, String.ext this.2⟩
  · simp [String.data_append] at hd
  · simp [String.data_append] at hd
  · refine ⟨rfl, fun u1 u2 => ?_⟩
    simp [String.data_append] at hd
    have := append_cons_inj_of_not_mem '_' _ _ _ _ u1 u2 hd
    exact ⟨String.ext this.1, String.ext this.2⟩

/-- Two configured selectors with the same asset path below one prefix have
asset keys of the same text, provided names and keys contain no slash. -/
theorem assetPath_key_eq (a : TLSCredentials) (sel1 sel2 : SecretOrConfigMap)
    (kind1 n1 k1 kind2 n2 k2 : String)
    (h1 : sel1.selected = some (kind1, n1, k1)) (h2 : sel2.selected = some (kind2, n2, k2))
    (s1 : '/' ∉ n1.data ∧ '/' ∉ k1.data) (s2 : '/' ∉ n2.data ∧ '/' ∉ k2.data)
    (h : a.assetPath sel1 = a.assetPath sel2) :
    kind1 ++ "__" ++ n1 ++ "_" ++ k1 = kind2 ++ "__" ++ n2 ++ "_" ++ k2 := by
  obtain ⟨e1, hk1⟩ := TLSAssetKeyFromSelector_selected sel1 kind1 n1 k1 h1
  obtain ⟨e2, hk2⟩ := TLSAssetKeyFromSelector_selected sel2 kind2 n2 k2 h2
  unfold TLSCredentials.assetPath at h
  rw [e1, e2] at h
  exact pathJoin_plain_inj _ _ _
    (plainElem_assetKey _ _ _ (plainElem_kind _ hk1) s1.1 s1.2)
    (plainElem_assetKey _ _ _ (plainElem_kind _ hk2) s2.1 s2.2) h

theorem assetPath_eq_pathJoin (mountPath : String) (key : SecretKeySelector)
    (cert clientCA sel : SecretOrConfigMap) :
    (NewTLSCredentials mountPath key cert clientCA).assetPath sel =
      pathJoin mountPath (TLSAssetKeyFromSelector "" sel) := rfl

theorem pathJoin_secret_ne_configMap (p n k : String) (hn : '/' ∉ n.data)
    (hk : '/' ∉ k.data) :
    pathJoin p (TLSAssetKeyFromSelector "" { Secret := some ⟨n, k⟩ }) ≠
      pathJoin p (TLSAssetKeyFromSelector "" { ConfigMap := some ⟨n, k⟩ }) := by
  rw [TLSAssetKeyFromSelector_secret { Secret := some ⟨n, k⟩ } ⟨n, k⟩ rfl,
    TLSAssetKeyFromSelector_configMap { ConfigMap := some ⟨n, k⟩ } ⟨n, k⟩ rfl rfl]
  intro h
  have e := pathJoin_plain_inj _ _ _
    (plainElem_assetKey _ _ _ (plainElem_kind _ (Or.inl rfl)) hn hk)
    (plainElem_assetKey _ _ _ (plainElem_kind _ (Or.inr rfl)) hn hk) h
  have hd := congrArg String.data e
  simp [String.data_append] at hd

/-- C14 (amended): for every mount prefix and every resource name and key
without a slash, the path resolved for the Secret-backed selector differs from
the path resolved for the ConfigMap-backed selector of the same name and key,
for the certificate as for the client CA. -/
theorem secret_and_configMap_paths_differ (p n k : String) (hn : '/' ∉ n.data)
    (hk : '/' ∉ k.data) (key : SecretKeySelector) (cert clientCA : SecretOrConfigMap) :
    (NewTLSCredentials p key cert clientCA).assetPath { Secret := some ⟨n, k⟩ } ≠
        (NewTLSCredentials p key cert clientCA).assetPath { ConfigMap := some ⟨n, k⟩ }
      ∧ (NewTLSCredentials p key { Secret := some ⟨n, k⟩ } clientCA).GetCertMountPath ≠
          (NewTLSCredentials p key { ConfigMap := some ⟨n, k⟩ } clientCA).GetCertMountPath
      ∧ (NewTLSCredentials p key cert { Secret := some ⟨n, k⟩ }).GetCAMountPath ≠
          (NewTLSCredentials p key cert { ConfigMap := some ⟨n, k⟩ }).GetCAMountPath := by
  have h := pathJoin_secret_ne_configMap p n k hn hk
  refine ⟨?_, ?_, ?_⟩
  · rw [assetPath_eq_pathJoin, assetPath_eq_pathJoin]
    exact h
  · unfold TLSCredentials.GetCertMountPath
    rw [if_pos (Or.inr (by simp [NewTLSCredentials])),
      if_pos (Or.inl (by simp [NewTLSCredentials]))]
    exact h
  · unfold TLSCredentials.GetCAMountPath
    rw [if_pos (Or.inr (by simp [NewTLSCredentials])),
      if_pos (Or.inl (by simp [NewTLSCredentials]))]
    exact h

/-- Witness of C14 (amended): below `/tls-assets-prefix`, the certificate
`tls.crt` of the Secret `some-name` and that of the ConfigMap `some-name`
resolve to different paths. -/
theorem secret_and_configMap_paths_differ_witness :
    ('/' ∉ "some-name".data ∧ '/' ∉ "tls.crt".data)
      ∧ (NewTLSCredentials "/tls-assets-prefix" ⟨"some-secret", "tls.key"⟩
            { Secret := some ⟨"some-name", "tls.crt"⟩ } {}).GetCertMountPath ≠
          (NewTLSCredentials "/tls-assets-prefix" ⟨"some-secret", "tls.key"⟩
            { ConfigMap := some ⟨"some-name", "tls.crt"⟩ } {}).GetCertMountPath :=
  ⟨⟨by decide, by decide⟩,
   (secret_and_configMap_paths_differ "/tls-assets-prefix" "some-name" "tls.crt"
      (by decide) (by decide) ⟨"some-secret", "tls.key"⟩ {} {}).2.1⟩

/-- C14 as stated fails: a resource name or a key that climbs with `..` makes
`path.Clean` remove the kind tag, so the Secret-backed and the ConfigMap-backed
selector of the same name and key resolve to the same path. -/
theorem secret_and_configMap_paths_collide :
    ((NewTLSCredentials "/tls-assets-prefix" ⟨"some-secret", "tls.key"⟩
          { Secret := some ⟨"/../shared", "tls.crt"⟩ } {}).GetCertMountPath
        = "/tls-assets-prefix/shared_tls.crt"
      ∧ (NewTLSCredentials "/tls-assets-prefix" ⟨"some-secret", "tls.key"⟩
          { ConfigMap := some ⟨"/../shared", "tls.crt"⟩ } {}).GetCertMountPath
        = "/tls-assets-prefix/shared_tls.crt")
    ∧ ((NewTLSCredentials "/tls-assets-prefix" ⟨"some-secret", "tls.key"⟩
          { Secret := some ⟨"shared", "/../tls.crt"⟩ } {}).GetCertMountPath
        = "/tls-assets-prefix/tls.crt"
      ∧ (NewTLSCredentials "/tls-assets-prefix" ⟨"some-secret", "tls.key"⟩
          { ConfigMap := some ⟨"shared", "/../tls.crt"⟩ } {}).GetCertMountPath
        = "/tls-assets-prefix/tls.crt") := by
  refine ⟨⟨by decide, by decide⟩, ⟨by decide, by decide⟩⟩

/-- C18: below a fixed mount prefix, two configured selectors whose resource
names contain neither `_` nor `/` and whose keys contain no `/` resolve to the
same asset path only if they have the same kind, resource name and key; so
the key, the certificate and the client CA of one `TLSCredentials` share a
resolved path only when they are the same credential. -/
theorem assetPath_injective (a : TLSCredentials) :
    (∀ (sel1 sel2 : SecretOrConfigMap) (kind1 n1 k1 kind2 n2 k2 : String),
        sel1.selected = some (kind1, n1, k1) → sel2.selected = some (kind2, n2, k2) →
        validNameKey n1 k1 → validNameKey n2 k2 →
        a.assetPath sel1 = a.assetPath sel2 → kind1 = kind2 ∧ n1 = n2 ∧ k1 = k2)
      ∧ (validNameKey a.keySecret.Name a.keySecret.Key →
          (∀ kind n k, a.cert.selected = some (kind, n, k) → validNameKey n k) →
          (∀ kind n k, a.clientCA.selected = some (kind, n, k) → validNameKey n k) →
          (a.cert.isConfigured → a.GetCertMountPath = a.GetKeyMountPath →
              a.cert.selected = some ("secret", a.keySecret.Name, a.keySecret.Key))
            ∧ (a.clientCA.isConfigured → a.GetCAMountPath = a.GetKeyMountPath →
              a.clientCA.selected = some ("secret", a.keySecret.Name, a.keySecret.Key))
            ∧ (a.cert.isConfigured → a.clientCA.isConfigured →
              a.GetCertMountPath = a.GetCAMountPath →
              a.cert.selected = a.clientCA.selected)) := by
  have main : ∀ (sel1 sel2 : SecretOrConfigMap) (kind1 n1 k1 kind2 n2 k2 : String),
      sel1.selected = some (kind1, n1, k1) → sel2.selected = some (kind2, n2, k2) →
      validNameKey n1 k1 → validNameKey n2 k2 →
      a.assetPath sel1 = a.assetPath sel2 → kind1 = kind2 ∧ n1 = n2 ∧ k1 = k2 := by
    intro sel1 sel2 kind1 n1 k1 kind2 n2 k2 h1 h2 v1 v2 h
    have e := assetPath_key_eq a sel1 sel2 kind1 n1 k1 kind2 n2 k2 h1 h2
      ⟨v1.2.1, v1.2.2⟩ ⟨v2.2.1, v2.2.2⟩ h
    have r := assetKey_inj kind1 n1 k1 kind2 n2 k2
      (TLSAssetKeyFromSelector_selected sel1 kind1 n1 k1 h1).2
      (TLSAssetKeyFromSelector_selected sel2 kind2 n2 k2 h2).2 e
    exact ⟨r.1, r.2 v1.1 v2.1⟩
  have hconf : ∀ sel : SecretOrConfigMap, sel.isConfigured →
      ∃ kind n k, sel.selected = some (kind, n, k) := by
    intro sel hc
    unfold SecretOrConfigMap.isConfigured at hc
    unfold SecretOrConfigMap.selected
    rcases hs : sel.Secret with _ | s
    · rcases hcm : sel.ConfigMap with _ | c
      · rw [hs, hcm] at hc
        simp at hc
      · exact ⟨_, _, _, rfl⟩
    · exact ⟨_, _, _, rfl⟩
  have hkeysel : (({ Secret := some a.keySecret } : SecretOrConfigMap)).selected =
      some ("secret", a.keySecret.Name, a.keySecret.Key) := rfl
  refine ⟨main, ?_⟩
  intro vk vc vx
  refine ⟨?_, ?_, ?_⟩
  · intro hc h
    obtain ⟨kind, n, k, hsel⟩ := hconf _ hc
    have hc2 := hc
    unfold SecretOrConfigMap.isConfigured at hc2
    unfold TLSCredentials.GetCertMountPath TLSCredentials.GetKeyMountPath at h
    rw [if_pos hc2] at h
    obtain ⟨e1, e2, e3⟩ := main _ _ _ _ _ _ _ _ hsel hkeysel (vc _ _ _ hsel) vk h
    rw [hsel, e1, e2, e3]
  · intro hc h
    obtain ⟨kind, n, k, hsel⟩ := hconf _ hc
    have hc2 := hc
    unfold SecretOrConfigMap.isConfigured at hc2
    unfold TLSCredentials.GetCAMountPath TLSCredentials.GetKeyMountPath at h
    rw [if_pos hc2] at h
    obtain ⟨e1, e2, e3⟩ := main _ _ _ _ _ _ _ _ hsel hkeysel (vx _ _ _ hsel) vk h
    rw [hsel, e1, e2, e3]
  · intro hc hx h
    obtain ⟨kind, n, k, hsel⟩ := hconf _ hc
    obtain ⟨kind2, n2, k2, hsel2⟩ := hconf _ hx
    have hc2 := hc
    have hx2 := hx
    unfold SecretOrConfigMap.isConfigured at hc2 hx2
    unfold TLSCredentials.GetCertMountPath TLSCredentials.GetCAMountPath at h
    rw [if_pos hc2, if_pos hx2] at h
    obtain ⟨e1, e2, e3⟩ := main _ _ _ _ _ _ _ _ hsel hsel2 (vc _ _ _ hsel) (vx _ _ _ hsel2) h
    rw [hsel, hsel2, e1, e2, e3]

/-- Witness of C18: the names and keys of the test credentials are valid, and
the certificate `tls.crt` and the client CA `tls.client_ca` of the Secret
`some-secret`, having different keys, resolve to different paths. -/
theorem assetPath_injective_witness :
    (validNameKey "some-secret" "tls.crt" ∧ validNameKey "some-secret" "tls.client_ca")
      ∧ (NewTLSCredentials "/tls-assets-prefix" ⟨"some-secret", "tls.key"⟩
            { Secret := some ⟨"some-secret", "tls.crt"⟩ }
            { Secret := some ⟨"some-secret", "tls.client_ca"⟩ }).assetPath
              { Secret := some ⟨"some-secret", "tls.crt"⟩ } ≠
          (NewTLSCredentials "/tls-assets-prefix" ⟨"some-secret", "tls.key"⟩
            { Secret := some ⟨"some-secret", "tls.crt"⟩ }
            { Secret := some ⟨"some-secret", "tls.client_ca"⟩ }).assetPath
              { Secret := some ⟨"some-secret", "tls.client_ca"⟩ } :=
  ⟨⟨by decide, by decide⟩, fun h =>
    absurd ((assetPath_injective
      (NewTLSCredentials "/tls-assets-prefix" ⟨"some-secret", "tls.key"⟩
        { Secret := some ⟨"some-secret", "tls.crt"⟩ }
        { Secret := some ⟨"some-secret", "tls.client_ca"⟩ })).1
      { Secret := some ⟨"some-secret", "tls.crt"⟩ }
      { Secret := some ⟨"some-secret", "tls.client_ca"⟩ }
      "secret" "some-secret" "tls.crt" "secret" "some-secret" "tls.client_ca"
      rfl rfl (by decide) (by decide) h).2.2 (by decide)⟩

end web_config
